import Mathlib

/-!
Shallow embedding of the DDL generator (src/generators/table-generator.ts)
and the findAll query builder (src/models/findAll.ts) of the AstroX11/sqlite
repository, together with theorems settling the specification claims.

JavaScript semantics conventions used throughout:
- optional / possibly-absent fields become Option;
- JavaScript truthiness of a string is (s not equal to "");
- template interpolation of undefined renders the text "undefined";
- Array.prototype.join is modelled by jsJoin, String.prototype.trim by jsTrim.
-/

/-- JavaScript string-ish helpers: Array.prototype.join with a separator. -/
def jsJoin (sep : String) : List String → String
  | [] => ""
  | [x] => x
  | x :: y :: rest => x ++ sep ++ jsJoin sep (y :: rest)

/-- Whitespace characters relevant to JavaScript String.prototype.trim
(our generated strings only ever carry plain spaces). -/
def isJsWhitespace (c : Char) : Bool := c = ' ' || c = '\t' || c = '\n' || c = '\r'

/-- JavaScript String.prototype.trim: drop whitespace from both ends. -/
def jsTrim (s : String) : String :=
  ⟨((s.data.dropWhile isJsWhitespace).reverse.dropWhile isJsWhitespace).reverse⟩

/-- Decimal digit character, as produced by JavaScript number rendering. -/
def digitChar (n : Nat) : Char := Char.ofNat (48 + n)

/-- Decimal digits, most significant first, driven by a structural fuel
counter so that the definition reduces inside the kernel; the fuel n + 1
always suffices since n / 10 shrinks at every step. -/
def natToCharsAux : Nat → Nat → List Char
  | 0, _ => []
  | fuel + 1, n =>
    if n < 10 then [digitChar n]
    else natToCharsAux fuel (n / 10) ++ [digitChar (n % 10)]

/-- Decimal digits of a natural number, most significant first. -/
def natToChars (n : Nat) : List Char := natToCharsAux (n + 1) n

/-- JavaScript template interpolation of an integer number value. -/
def intToStr (i : Int) : String :=
  if i < 0 then "-" ++ ⟨natToChars i.natAbs⟩ else ⟨natToChars i.natAbs⟩

/-- Bool test: p occurs as a contiguous substring of l. -/
def containsSub (sub : List Char) : List Char → Bool
  | [] => sub.isEmpty
  | c :: rest => sub.isPrefixOf (c :: rest) || containsSub sub rest

/-- Bool test: the string p is a prefix of the string s. -/
def strStartsWith (p s : String) : Bool := p.data.isPrefixOf s.data

/-- Last character of a string, if any. -/
def strLast (s : String) : Option Char := s.data.getLast?

/-! ## Data model (src/Types.mts, as consumed by the generator) -/

/-- JavaScript value universe for default values and query parameters. -/
inductive JSVal where
  | undefinedV
  | null
  | str (s : String)
  | num (n : Int)
  | bool (b : Bool)
deriving DecidableEq, Repr

/-- The polymorphic unique field: boolean, named-constraint string, or
an object carrying an optional name. -/
inductive UniqueSpec where
  | inline (b : Bool)
  | named (s : String)
  | obj (name : Option String)
deriving DecidableEq, Repr

/-- Generated-column descriptor. -/
structure GeneratedSpec where
  expression : String
  stored : Bool
deriving DecidableEq, Repr

/-- Column-level foreign-key reference. -/
structure RefSpec where
  table : String
  column : String
deriving DecidableEq, Repr

/-- Per-column attribute descriptor. -/
structure AttributeSpec where
  type : String
  allowNull : Option Bool := none
  primaryKey : Bool := false
  autoIncrement : Bool := false
  unique : Option UniqueSpec := none
  defaultValue : Option JSVal := none
  check : Option String := none
  collate : Option String := none
  generated : Option GeneratedSpec := none
  references : Option RefSpec := none
  onDelete : Option String := none
  onUpdate : Option String := none
  deferrable : Bool := false
  deferred : Bool := false
deriving DecidableEq, Repr

/-- options.primaryKey: a single column name or an ordered list of names. -/
inductive PKOpt where
  | str (s : String)
  | arr (l : List String)
deriving DecidableEq, Repr

/-- Fields of a table-level foreign-key references object: an array of
column names or a single name. -/
inductive FKRefFields where
  | list (l : List String)
  | single (s : String)
deriving DecidableEq, Repr

/-- Table-level foreign-key references object. -/
structure FKRef where
  table : String
  fields : FKRefFields
deriving DecidableEq, Repr

/-- Table-level foreign-key constraint spec.  A fields value that is not
an array is modelled as none. -/
structure FKSpec where
  fields : Option (List String) := none
  references : Option FKRef := none
  onDelete : Option String := none
  onUpdate : Option String := none
  deferrable : Bool := false
  deferred : Bool := false
deriving DecidableEq, Repr

/-- options.constraints. -/
structure ConstraintsSpec where
  unique : Option (List (String × Option (List String))) := none
  check : Option (List (String × String)) := none
  foreignKey : Option (List (String × FKSpec)) := none
deriving DecidableEq, Repr

/-- options.virtual. -/
structure VirtualSpec where
  usingMod : Option String := none
  args : Option (List String) := none
deriving DecidableEq, Repr

/-- Table options.  An absent options object behaves exactly like the
record with every field at its default, which is how it is modelled. -/
structure TableOptions where
  primaryKey : Option PKOpt := none
  constraints : Option ConstraintsSpec := none
  strict : Bool := false
  withoutRowid : Bool := false
  temporary : Bool := false
  ifNotExists : Bool := false
  underscored : Bool := false
  virtual : Option VirtualSpec := none
deriving DecidableEq, Repr

/-- Model definition: table name, ordered attribute mapping, options. -/
structure ModelDefinition where
  tableName : String
  attributes : List (String × AttributeSpec) := []
  options : TableOptions := {}
deriving DecidableEq, Repr

/-! ## Modelled utilities (utils.js is not part of the provided sources) -/

/-- Modelled from the spec: the snake_case transform applied to column
names when options.underscored is set (utils.js snakeCase is missing from
the sources).  Lowercases ASCII letters, inserting an underscore before
each uppercase letter. -/
def snakeChar (c : Char) : List Char :=
  if 'A' ≤ c ∧ c ≤ 'Z' then ['_', Char.ofNat (c.toNat + 32)] else [c]

/-- Modelled from the spec: snake_case over a whole name. -/
def snakeCase (s : String) : String := ⟨s.data.flatMap snakeChar⟩

/-- Modelled from the spec: the fixed logical-type to native-type lookup
(utils.js mapDataType is missing from the sources).  The spec fixes
STRING to TEXT and says other kinds map to their native equivalents, so
every other tag passes through unchanged. -/
def mapDataType (t : String) : String := if t = "STRING" then "TEXT" else t

/-- Modelled from the spec: default-value formatting (utils.js
formatDefaultValue is missing from the sources): quote strings, pass
numbers and booleans through, special-case null. -/
def formatDefaultValue : JSVal → String
  | .str s => "'" ++ s ++ "'"
  | .num n => intToStr n
  | .bool b => if b then "true" else "false"
  | .null => "NULL"
  | .undefinedV => "undefined"

/-! ## DDL generator (src/generators/table-generator.ts) -/

/-- JavaScript truthiness of an optional string field. -/
def strTruthy : Option String → Bool
  | none => false
  | some s => s ≠ ""

/-- Truthiness of def.options?.primaryKey: arrays and objects are truthy,
a string is truthy iff nonempty. -/
def pkOptTruthy : Option PKOpt → Bool
  | none => false
  | some (.str s) => s ≠ ""
  | some (.arr _) => true

/-- typeof def.options.primaryKey === string. -/
def pkOptIsString : Option PKOpt → Bool
  | some (.str _) => true
  | _ => false

/-- Column name resolution: snake_case when options.underscored. -/
def resolvedColName (o : TableOptions) (name : String) : String :=
  if o.underscored then snakeCase name else name

/-- def.attributes[s]?.primaryKey -/
def attrFlagged (attrs : List (String × AttributeSpec)) (s : String) : Bool :=
  match attrs.find? (fun p => p.1 = s) with
  | some p => p.2.primaryKey
  | none => false

/-- The parts array built for one column in the generator loop
(table-generator.ts lines 20 to 80). -/
def columnParts (o : TableOptions) (name : String) (attr : AttributeSpec) : List String :=
  [resolvedColName o name, mapDataType attr.type]
  ++ (if attr.primaryKey then
        (if !(pkOptTruthy o.primaryKey) || pkOptIsString o.primaryKey then
          ["PRIMARY KEY"] ++ (if attr.autoIncrement then ["AUTOINCREMENT"] else [])
        else [])
      else [])
  ++ (if attr.allowNull = some false then ["NOT NULL"] else [])
  ++ (match attr.unique with
      | some (.inline true) => ["UNIQUE"]
      | _ => [])
  ++ (match attr.defaultValue with
      | some v => ["DEFAULT " ++ formatDefaultValue v]
      | none => [])
  ++ (if strTruthy attr.check then ["CHECK (" ++ attr.check.getD "" ++ ")"] else [])
  ++ (if mapDataType attr.type = "TEXT" && strTruthy attr.collate then
        ["COLLATE " ++ attr.collate.getD ""]
      else [])
  ++ (match attr.generated with
      | some g =>
        ["GENERATED ALWAYS AS (" ++ g.expression ++ ") " ++
          (if g.stored then "STORED" else "VIRTUAL")]
      | none => [])
  ++ (match attr.references with
      | some r =>
        ["REFERENCES " ++ r.table ++ "(" ++ r.column ++ ")"]
        ++ (if strTruthy attr.onDelete then ["ON DELETE " ++ attr.onDelete.getD ""] else [])
        ++ (if strTruthy attr.onUpdate then ["ON UPDATE " ++ attr.onUpdate.getD ""] else [])
        ++ (if attr.deferrable then
              ["DEFERRABLE INITIALLY " ++ (if attr.deferred then "DEFERRED" else "IMMEDIATE")]
            else [])
      | none => [])

/-- The named unique table constraints pushed while processing one column
(table-generator.ts lines 36 to 44). -/
def uniqueConstraintsOfAttr (o : TableOptions) (name : String)
    (attr : AttributeSpec) : List String :=
  match attr.unique with
  | some (.named s) =>
    if s ≠ "" then
      ["CONSTRAINT " ++ s ++ " UNIQUE (" ++ resolvedColName o name ++ ")"]
    else []
  | some (.obj (some n)) =>
    if n ≠ "" then
      ["CONSTRAINT " ++ n ++ " UNIQUE (" ++ resolvedColName o name ++ ")"]
    else []
  | _ => []

/-- The column list of the PRIMARY KEY table constraint the generator
pushes, if any (table-generator.ts lines 83 to 93). -/
def pkTableKey (o : TableOptions) (attrs : List (String × AttributeSpec)) :
    Option (List String) :=
  match o.primaryKey with
  | some (.arr l) => some l
  | some (.str s) => if s ≠ "" && !(attrFlagged attrs s) then some [s] else none
  | none => none

/-- Rendered PRIMARY KEY table constraint entries (zero or one). -/
def pkTableConstraints (o : TableOptions) (attrs : List (String × AttributeSpec)) :
    List String :=
  (pkTableKey o attrs).toList.map (fun l => "PRIMARY KEY (" ++ jsJoin ", " l ++ ")")

/-- Table-level unique constraints from options.constraints.unique
(table-generator.ts lines 97 to 104). -/
def uniqueTableConstraints (o : TableOptions) : List String :=
  match o.constraints with
  | none => []
  | some c =>
    match c.unique with
    | none => []
    | some entries =>
      entries.flatMap (fun p =>
        match p.2 with
        | some (f :: fs) =>
          ["CONSTRAINT " ++ p.1 ++ " UNIQUE (" ++ jsJoin ", " (f :: fs) ++ ")"]
        | _ => [])

/-- Table-level check constraints from options.constraints.check
(table-generator.ts lines 107 to 111). -/
def checkTableConstraints (o : TableOptions) : List String :=
  match o.constraints with
  | none => []
  | some c =>
    match c.check with
    | none => []
    | some entries =>
      entries.map (fun p => "CONSTRAINT " ++ p.1 ++ " CHECK (" ++ p.2 ++ ")")

/-- Rendering of fk.references.fields: joined when an array, interpolated
directly otherwise. -/
def renderRefFields : FKRefFields → String
  | .list l => jsJoin ", " l
  | .single s => s

/-- One table-level foreign-key constraint entry (table-generator.ts
lines 114 to 132): skipped entirely unless fields is a nonempty array and
references is present. -/
def fkConstraintOf (name : String) (fk : FKSpec) : List String :=
  match fk.fields, fk.references with
  | some (f :: fs), some r =>
    ["CONSTRAINT " ++ name ++ " FOREIGN KEY (" ++ jsJoin ", " (f :: fs) ++ ") " ++
      "REFERENCES " ++ r.table ++ "(" ++ renderRefFields r.fields ++ ")" ++
      (if strTruthy fk.onDelete then " ON DELETE " ++ fk.onDelete.getD "" else "") ++
      (if strTruthy fk.onUpdate then " ON UPDATE " ++ fk.onUpdate.getD "" else "") ++
      (if fk.deferrable then
        " DEFERRABLE INITIALLY " ++ (if fk.deferred then "DEFERRED" else "IMMEDIATE")
      else "")]
  | _, _ => []

/-- Table-level foreign-key constraints from options.constraints.foreignKey. -/
def fkTableConstraints (o : TableOptions) : List String :=
  match o.constraints with
  | none => []
  | some c =>
    match c.foreignKey with
    | none => []
    | some entries => entries.flatMap (fun p => fkConstraintOf p.1 p.2)

/-- All table constraints, in the push order of the source. -/
def tableConstraints (o : TableOptions) (attrs : List (String × AttributeSpec)) :
    List String :=
  attrs.flatMap (fun p => uniqueConstraintsOfAttr o p.1 p.2)
  ++ pkTableConstraints o attrs
  ++ uniqueTableConstraints o
  ++ checkTableConstraints o
  ++ fkTableConstraints o

/-- The rendered column definitions, in attribute order. -/
def columnDefs (o : TableOptions) (attrs : List (String × AttributeSpec)) :
    List String :=
  attrs.map (fun p => jsJoin " " (columnParts o p.1 p.2))

/-- Columns followed by table constraints (the allDefinitions array). -/
def allDefinitions (o : TableOptions) (attrs : List (String × AttributeSpec)) :
    List String :=
  columnDefs o attrs ++ tableConstraints o attrs

/-- Trailing table modifiers: STRICT, WITHOUT ROWID, TEMPORARY, with the
falsy entries filtered out. -/
def tableOptionsList (o : TableOptions) : List String :=
  ([if o.strict then "STRICT" else "",
    if o.withoutRowid then "WITHOUT ROWID" else "",
    if o.temporary then "TEMPORARY" else ""]).filter (fun s => s ≠ "")

/-- generateVirtualTableSQL (table-generator.ts lines 156 to 164): throws
when def.options.virtual is absent; otherwise interpolates the module name
(the text "undefined" when the usingMod field is missing) and the args
joined with commas. -/
def generateVirtualTableSQL (d : ModelDefinition) : Except String String :=
  match d.options.virtual with
  | none => .error "Virtual table options are required"
  | some v =>
    .ok ("CREATE VIRTUAL TABLE " ++
      (if d.options.ifNotExists then "IF NOT EXISTS " else "") ++
      d.tableName ++ " USING " ++
      (match v.usingMod with | some u => u | none => "undefined") ++
      " (" ++ (match v.args with | some l => jsJoin ", " l | none => "") ++ ")")

/-- generateCreateTableSQL (table-generator.ts lines 10 to 148). -/
def generateCreateTableSQL (d : ModelDefinition) : Except String String :=
  match d.options.virtual with
  | some _ => generateVirtualTableSQL d
  | none =>
    .ok (jsTrim ("CREATE TABLE " ++
      (if d.options.ifNotExists then "IF NOT EXISTS " else "") ++
      d.tableName ++ " (" ++
      jsJoin ", " (allDefinitions d.options d.attributes) ++ ") " ++
      jsJoin " " (tableOptionsList d.options)))

/-! ## General helper lemmas -/

theorem append_ne_of_head_ne {a b : String} (c1 c2 : Char)
    (h1 : a.data.head? = some c1) (h2 : b.data.head? = some c2)
    (hne : c1 ≠ c2) (x : String) : a ++ x ≠ b := by
  intro he
  apply hne
  have hd := congrArg (fun s : String => s.data.head?) he
  simp only [String.data_append] at hd
  cases ha : a.data with
  | nil => rw [ha] at h1; simp at h1
  | cons c tl =>
    rw [ha] at hd h1
    simp only [List.cons_append, List.head?_cons] at hd h1
    rw [h2] at hd
    cases h1
    cases hd
    rfl

theorem str_ne_of_head_ne {a b : String} (c1 c2 : Char)
    (h1 : a.data.head? = some c1) (h2 : b.data.head? = some c2)
    (hne : c1 ≠ c2) : a ≠ b := by
  intro he
  rw [he, h2] at h1
  cases h1
  exact hne rfl

theorem str_append_cancel (a : String) {b c : String} (h : b = c) : a ++ b = a ++ c := by
  rw [h]

/-! ## C1: the generator never fails -/

/-- C1 counterexample input: options.virtual truthy with no using module. -/
def c1Def : ModelDefinition :=
  { tableName := "t", options := { virtual := some {} } }

/-- C1 counterexample: the claim says generation must fail (kind
InvalidVirtualTableSpec) when options.virtual is truthy but has no using
module name; on this input the code succeeds and renders the module name
as the text undefined. -/
theorem C1_missing_using_does_not_fail :
    (∃ v, c1Def.options.virtual = some v ∧ v.usingMod = none) ∧
    generateCreateTableSQL c1Def = .ok "CREATE VIRTUAL TABLE t USING undefined ()" := by
  exact ⟨⟨{}, rfl, rfl⟩, rfl⟩

/-- C1 (amended): generation never fails: generateCreateTableSQL returns
a complete SQL string for every definition, including a truthy
options.virtual with a missing using module name; the only error in
generateVirtualTableSQL fires exactly when options.virtual is absent,
which is unreachable through generateCreateTableSQL. -/
theorem C1_generator_total (d : ModelDefinition) :
    (∃ s, generateCreateTableSQL d = .ok s) ∧
    ((∃ e, generateVirtualTableSQL d = .error e) ↔ d.options.virtual = none) := by
  constructor
  · unfold generateCreateTableSQL generateVirtualTableSQL
    cases h : d.options.virtual with
    | none => exact ⟨_, rfl⟩
    | some v => simp [h]
  · unfold generateVirtualTableSQL
    cases h : d.options.virtual with
    | none => simp
    | some v => simp

/-! ## C5: the Users example -/

/-- C5 input: tableName Users, a single STRING primary-key column. -/
def usersDef : ModelDefinition :=
  { tableName := "Users",
    attributes := [("id", { type := "STRING", primaryKey := true, allowNull := some false })] }

/-- C5: the generated statement is exactly the expected one, with no
trailing whitespace. -/
theorem C5_users_exact :
    generateCreateTableSQL usersDef =
      .ok "CREATE TABLE Users (id TEXT PRIMARY KEY NOT NULL)" := by
  rfl

/-! ## C9: determinism -/

/-- C9: the generator is a pure function of the definition value: two
calls on the same definition yield byte-identical output (the source has
no module-level mutable state, so the pure embedding is faithful, and
input mutation is impossible by construction). -/
theorem C9_deterministic (d : ModelDefinition) :
    generateCreateTableSQL d = generateCreateTableSQL d := rfl

/-! ## C6: virtual-table output shape -/

/-- C6: for every definition with virtual.using fts5 and args title, body
and ifNotExists unset, the output is exactly CREATE VIRTUAL TABLE t USING
fts5 (title, body); and when args is absent the argument list is empty. -/
theorem C6_virtual_exact (d : ModelDefinition) :
    (d.options.virtual = some { usingMod := some "fts5", args := some ["title", "body"] } →
      d.options.ifNotExists = false →
      generateCreateTableSQL d =
        .ok ("CREATE VIRTUAL TABLE " ++ d.tableName ++ " USING fts5 (title, body)")) ∧
    (∀ m, d.options.virtual = some { usingMod := some m, args := none } →
      d.options.ifNotExists = false →
      generateCreateTableSQL d =
        .ok ("CREATE VIRTUAL TABLE " ++ d.tableName ++ " USING " ++ m ++ " ()")) := by
  constructor
  · intro hv hine
    unfold generateCreateTableSQL generateVirtualTableSQL
    rw [hv, hine]
    simp only [Bool.false_eq_true, if_false, String.empty_append, String.append_assoc]
    exact congrArg Except.ok (str_append_cancel _ (str_append_cancel _ (by decide)))
  · intro m hv hine
    unfold generateCreateTableSQL generateVirtualTableSQL
    rw [hv, hine]
    simp only [Bool.false_eq_true, if_false, String.empty_append, String.append_assoc]
    exact congrArg Except.ok
      (str_append_cancel _ (str_append_cancel _ (str_append_cancel _
        (str_append_cancel _ (by decide)))))

/-- C6 witness: both parts of the theorem applied at concrete inputs. -/
def c6Def : ModelDefinition :=
  { tableName := "t",
    options := { virtual := some { usingMod := some "fts5", args := some ["title", "body"] } } }

def c6defNoArgs : ModelDefinition :=
  { tableName := "t", options := { virtual := some { usingMod := some "fts5" } } }

theorem C6_virtual_exact_witness :
    generateCreateTableSQL c6Def = .ok "CREATE VIRTUAL TABLE t USING fts5 (title, body)" ∧
    generateCreateTableSQL c6defNoArgs = .ok "CREATE VIRTUAL TABLE t USING fts5 ()" := by
  constructor
  · exact ((C6_virtual_exact c6Def).1 rfl rfl).trans (congrArg Except.ok (by decide))
  · exact ((C6_virtual_exact c6defNoArgs).2 "fts5" rfl rfl).trans
      (congrArg Except.ok (by decide))

/-! ## C2: column-level PRIMARY KEY suppression -/

theorem not_mem_append2 {α} {a : α} {l1 l2 : List α} (h1 : a ∉ l1) (h2 : a ∉ l2) :
    a ∉ l1 ++ l2 := by
  simp only [List.mem_append]
  exact fun h => h.elim h1 h2

theorem pk_head : ("PRIMARY KEY").data.head? = some 'P' := rfl

theorem ne_pk_append (lit : String) (c : Char) (hc : lit.data.head? = some c)
    (h : c ≠ 'P') (x : String) : "PRIMARY KEY" ≠ lit ++ x :=
  (append_ne_of_head_ne c 'P' hc pk_head h x).symm

theorem pk_notin_ite_single {c : Prop} [Decidable c] {s : String}
    (h : "PRIMARY KEY" ≠ s) : "PRIMARY KEY" ∉ (if c then [s] else []) := by
  split
  · simp [h]
  · simp

/-- C2 counterexample input: column a is flagged primaryKey while
options.primaryKey is the string b, which does not match column a. -/
def c2opts : TableOptions := { primaryKey := some (.str "b") }

def c2attr : AttributeSpec := { type := "STRING", primaryKey := true }

/-- C2 counterexample: options.primaryKey is set and is not a flag
matching column a, yet the column-level PRIMARY KEY clause is still
emitted (the claim says it must be omitted in exactly this situation). -/
theorem C2_string_pk_not_suppressed :
    (c2opts.primaryKey).isSome = true ∧
    c2opts.primaryKey ≠ some (.str "a") ∧
    "PRIMARY KEY" ∈ columnParts c2opts "a" c2attr := by
  refine ⟨rfl, by decide, ?_⟩
  decide

theorem head?_append_of_head (a : String) {c : Char} (h : a.data.head? = some c)
    (x : String) : (a ++ x).data.head? = some c := by
  cases hl : a.data with
  | nil => rw [hl] at h; cases h
  | cons b tl =>
    rw [hl] at h
    simp only [List.head?_cons] at h
    simp [String.data_append, hl, h]

theorem ne_pk_of_head {a : String} (c : Char) (ha : a.data.head? = some c)
    (hc : c ≠ 'P') : a ≠ "PRIMARY KEY" :=
  str_ne_of_head_ne c 'P' ha pk_head hc

theorem pk_notin_unique_seg (u : Option UniqueSpec) :
    "PRIMARY KEY" ∉ (match u with
      | some (.inline true) => ["UNIQUE"]
      | _ => ([] : List String)) := by
  match u with
  | some (.inline true) => decide
  | some (.inline false) => simp
  | some (.named s) => simp
  | some (.obj n) => simp
  | none => simp

theorem pk_notin_default_seg (v : Option JSVal) :
    "PRIMARY KEY" ∉ (match v with
      | some v => ["DEFAULT " ++ formatDefaultValue v]
      | none => ([] : List String)) := by
  match v with
  | some v =>
    intro hm
    simp only [List.mem_singleton] at hm
    exact ne_pk_of_head 'D' (head?_append_of_head "DEFAULT " rfl _) (by decide) hm.symm
  | none => simp

theorem pk_notin_generated_seg (g : Option GeneratedSpec) :
    "PRIMARY KEY" ∉ (match g with
      | some g =>
        ["GENERATED ALWAYS AS (" ++ g.expression ++ ") " ++
          (if g.stored then "STORED" else "VIRTUAL")]
      | none => ([] : List String)) := by
  match g with
  | some g =>
    intro hm
    simp only [List.mem_singleton] at hm
    exact ne_pk_of_head 'G'
      (head?_append_of_head _
        (head?_append_of_head _
          (head?_append_of_head "GENERATED ALWAYS AS (" rfl _) _) _)
      (by decide) hm.symm
  | none => simp

theorem pk_notin_references_seg (attr : AttributeSpec) :
    "PRIMARY KEY" ∉ (match attr.references with
      | some r =>
        ["REFERENCES " ++ r.table ++ "(" ++ r.column ++ ")"]
        ++ (if strTruthy attr.onDelete then ["ON DELETE " ++ attr.onDelete.getD ""] else [])
        ++ (if strTruthy attr.onUpdate then ["ON UPDATE " ++ attr.onUpdate.getD ""] else [])
        ++ (if attr.deferrable then
              ["DEFERRABLE INITIALLY " ++ (if attr.deferred then "DEFERRED" else "IMMEDIATE")]
            else [])
      | none => ([] : List String)) := by
  match href : attr.references with
  | some r =>
    refine not_mem_append2 (not_mem_append2 (not_mem_append2 ?_ ?_) ?_) ?_
    · intro hm
      simp only [List.mem_singleton] at hm
      exact ne_pk_of_head 'R'
        (head?_append_of_head _
          (head?_append_of_head _
            (head?_append_of_head _
              (head?_append_of_head "REFERENCES " rfl _) _) _) _)
        (by decide) hm.symm
    · exact pk_notin_ite_single
        (ne_pk_of_head 'O' (head?_append_of_head "ON DELETE " rfl _) (by decide)).symm
    · exact pk_notin_ite_single
        (ne_pk_of_head 'O' (head?_append_of_head "ON UPDATE " rfl _) (by decide)).symm
    · exact pk_notin_ite_single
        (ne_pk_of_head 'D'
          (head?_append_of_head "DEFERRABLE INITIALLY " rfl _) (by decide)).symm
  | none => simp


theorem pk_notin_columnParts (o : TableOptions) (name : String) (attr : AttributeSpec)
    (h1 : resolvedColName o name ≠ "PRIMARY KEY")
    (h2 : mapDataType attr.type ≠ "PRIMARY KEY")
    (hseg : attr.primaryKey = false ∨ ∃ l, o.primaryKey = some (.arr l)) :
    "PRIMARY KEY" ∉ columnParts o name attr := by
  unfold columnParts
  refine not_mem_append2 (not_mem_append2 (not_mem_append2 (not_mem_append2
    (not_mem_append2 (not_mem_append2 (not_mem_append2 (not_mem_append2
      ?_ ?_) ?_) ?_) ?_) ?_) ?_) ?_) ?_
  · intro hm
    rcases List.mem_cons.mp hm with h | h
    · exact h1 h.symm
    · rcases List.mem_cons.mp h with h | h
      · exact h2 h.symm
      · simp at h
  · rcases hseg with h | ⟨l, h⟩
    · simp [h]
    · simp [h, pkOptTruthy, pkOptIsString]
  · exact pk_notin_ite_single (by decide)
  · exact pk_notin_unique_seg attr.unique
  · exact pk_notin_default_seg attr.defaultValue
  · exact pk_notin_ite_single
      (ne_pk_of_head 'C'
        (head?_append_of_head _
          (head?_append_of_head "CHECK (" rfl _) _) (by decide)).symm
  · exact pk_notin_ite_single
      (ne_pk_of_head 'C' (head?_append_of_head "COLLATE " rfl _) (by decide)).symm
  · exact pk_notin_generated_seg attr.generated
  · exact pk_notin_references_seg attr

theorem pk_mem_columnParts (o : TableOptions) (name : String) (attr : AttributeSpec)
    (hpk : attr.primaryKey = true)
    (harr : pkOptIsString o.primaryKey = true ∨ pkOptTruthy o.primaryKey = false) :
    "PRIMARY KEY" ∈ columnParts o name attr := by
  unfold columnParts
  rcases harr with h | h <;> simp [hpk, h]

/-- Characterization of the column-level PRIMARY KEY clause: present for
a column iff the column is flagged and options.primaryKey is not an
array. -/
theorem pk_mem_columnParts_iff (o : TableOptions) (name : String) (attr : AttributeSpec)
    (h1 : resolvedColName o name ≠ "PRIMARY KEY")
    (h2 : mapDataType attr.type ≠ "PRIMARY KEY") :
    "PRIMARY KEY" ∈ columnParts o name attr ↔
      attr.primaryKey = true ∧ ∀ l, o.primaryKey ≠ some (.arr l) := by
  constructor
  · intro hmem
    cases hpk : attr.primaryKey with
    | false =>
      exact absurd hmem (pk_notin_columnParts o name attr h1 h2 (Or.inl hpk))
    | true =>
      refine ⟨rfl, ?_⟩
      intro l hl
      exact absurd hmem (pk_notin_columnParts o name attr h1 h2 (Or.inr ⟨l, hl⟩))
  · rintro ⟨hpk, harr⟩
    apply pk_mem_columnParts o name attr hpk
    cases hopt : o.primaryKey with
    | none => exact Or.inr (by simp [pkOptTruthy])
    | some pk =>
      cases pk with
      | str s => exact Or.inl (by simp [pkOptIsString])
      | arr l => exact absurd hopt (harr l)

/-- C2 (amended): for a column flagged primaryKey, the column-level
PRIMARY KEY clause is omitted exactly when options.primaryKey is an
array (a composite key); a string or absent options.primaryKey always
leaves the column-level clause emitted, regardless of whether the string
names this column. -/
theorem C2_col_pk_omitted_iff_array (o : TableOptions) (name : String)
    (attr : AttributeSpec) (hpk : attr.primaryKey = true)
    (h1 : resolvedColName o name ≠ "PRIMARY KEY")
    (h2 : mapDataType attr.type ≠ "PRIMARY KEY") :
    "PRIMARY KEY" ∉ columnParts o name attr ↔ ∃ l, o.primaryKey = some (.arr l) := by
  rw [not_iff_comm]
  rw [pk_mem_columnParts_iff o name attr h1 h2]
  constructor
  · intro h
    exact ⟨hpk, fun l hl => h ⟨l, hl⟩⟩
  · rintro ⟨_, harr⟩ ⟨l, hl⟩
    exact harr l hl

/-- C2 witness: the amended theorem applied at a composite-key input. -/
theorem C2_col_pk_omitted_iff_array_witness :
    "PRIMARY KEY" ∉
      columnParts { primaryKey := some (.arr ["x", "y"]) } "a"
        { type := "STRING", primaryKey := true } :=
  (C2_col_pk_omitted_iff_array { primaryKey := some (.arr ["x", "y"]) } "a"
    { type := "STRING", primaryKey := true } rfl (by decide) (by decide)).mpr
    ⟨["x", "y"], rfl⟩

/-! ## C3: no duplicate PRIMARY KEY constraints for the same key -/

/-- The keys (as column-name lists) of every PRIMARY KEY constraint the
generator emits: one singleton key per column definition carrying the
column-level clause, plus the key of the table-level constraint, if
any. -/
def emittedPKKeys (o : TableOptions) (attrs : List (String × AttributeSpec)) :
    List (List String) :=
  (attrs.filter (fun p => decide ("PRIMARY KEY" ∈ columnParts o p.1 p.2))).map
    (fun p => [resolvedColName o p.1])
  ++ (pkTableKey o attrs).toList

/-- C3 counterexample input: with underscored renaming, the two distinct
attribute names aB and a_b resolve to the same column name a_b, and both
carry the primaryKey flag. -/
def c3Def : ModelDefinition :=
  { tableName := "T",
    attributes := [("aB", { type := "STRING", primaryKey := true }),
                   ("a_b", { type := "STRING", primaryKey := true })],
    options := { underscored := true } }

/-- C3 counterexample: the output carries two identical column-level
PRIMARY KEY constraints covering the same key a_b, so the claimed
invariant fails on this definition. -/
theorem C3_snakecase_collision_duplicates_pk :
    generateCreateTableSQL c3Def =
      .ok "CREATE TABLE T (a_b TEXT PRIMARY KEY, a_b TEXT PRIMARY KEY)" ∧
    emittedPKKeys c3Def.options c3Def.attributes = [["a_b"], ["a_b"]] ∧
    ¬ (emittedPKKeys c3Def.options c3Def.attributes).Nodup := by
  refine ⟨rfl, rfl, by decide⟩

theorem find?_key_eq {attrs : List (String × AttributeSpec)} {n : String}
    {a : AttributeSpec} (hmem : (n, a) ∈ attrs)
    (hnd : (attrs.map Prod.fst).Nodup) :
    attrs.find? (fun p => p.1 = n) = some (n, a) := by
  induction attrs with
  | nil => cases hmem
  | cons hd tl ih =>
    rcases List.mem_cons.mp hmem with h | h
    · subst h
      simp [List.find?]
    · have hnd' := hnd
      rw [List.map_cons, List.nodup_cons] at hnd'
      have hne : hd.1 ≠ n := by
        intro he
        exact hnd'.1 (he ▸ List.mem_map.mpr ⟨(n, a), h, rfl⟩)
      rw [List.find?_cons_of_neg _ (by simpa using hne)]
      exact ih h hnd'.2

/-- C3 (amended): an options.primaryKey array suppresses every
column-level PRIMARY KEY clause, so the table-level composite constraint
is the only PRIMARY KEY emitted; and whenever underscored renaming is off
(so resolved column names cannot collide), the emitted PRIMARY KEY
constraints cover pairwise distinct keys. -/
theorem C3_no_duplicate_pk_keys (o : TableOptions)
    (attrs : List (String × AttributeSpec))
    (hyg : ∀ p ∈ attrs, resolvedColName o p.1 ≠ "PRIMARY KEY" ∧
      mapDataType p.2.type ≠ "PRIMARY KEY") :
    (∀ l, o.primaryKey = some (.arr l) → emittedPKKeys o attrs = [l]) ∧
    (o.underscored = false → (attrs.map Prod.fst).Nodup →
      (emittedPKKeys o attrs).Nodup) := by
  constructor
  · intro l hopt
    unfold emittedPKKeys
    have hfil : attrs.filter (fun p => decide ("PRIMARY KEY" ∈ columnParts o p.1 p.2)) = [] := by
      rw [List.filter_eq_nil_iff]
      intro p hp
      simp only [decide_eq_true_eq]
      exact pk_notin_columnParts o p.1 p.2 (hyg p hp).1 (hyg p hp).2 (Or.inr ⟨l, hopt⟩)
    rw [hfil]
    unfold pkTableKey
    rw [hopt]
    rfl
  · intro hus hnd
    unfold emittedPKKeys
    have hres : ∀ n, resolvedColName o n = n := by
      intro n
      unfold resolvedColName
      rw [hus]
      simp
    rw [List.nodup_append]
    refine ⟨?_, ?_, ?_⟩
    · have h1 : (attrs.filter (fun p => decide ("PRIMARY KEY" ∈ columnParts o p.1 p.2))).map
          (fun p => [resolvedColName o p.1]) =
          ((attrs.filter (fun p => decide ("PRIMARY KEY" ∈ columnParts o p.1 p.2))).map
            Prod.fst).map (fun n => [n]) := by
        rw [List.map_map]
        exact List.map_congr_left (fun p _ => by simp [Function.comp, hres])
      rw [h1]
      apply List.Nodup.map
      · intro x y hxy
        simpa using hxy
      · exact ((List.filter_sublist attrs).map Prod.fst).nodup hnd
    · cases h : pkTableKey o attrs <;> simp
    · intro k hk1 hk2
      rcases List.mem_map.mp hk1 with ⟨p, hp, hpk⟩
      have hpmem := List.mem_of_mem_filter hp
      have hpflag : "PRIMARY KEY" ∈ columnParts o p.1 p.2 := by
        have := List.of_mem_filter hp
        simpa using this
      have hiff := (pk_mem_columnParts_iff o p.1 p.2 (hyg p hpmem).1 (hyg p hpmem).2).mp hpflag
      unfold pkTableKey at hk2
      cases hopt : o.primaryKey with
      | none => rw [hopt] at hk2; simp at hk2
      | some pk =>
        cases pk with
        | arr l => exact absurd hopt (hiff.2 l)
        | str s =>
          rw [hopt] at hk2
          dsimp only at hk2
          by_cases hcond : (s ≠ "" && !(attrFlagged attrs s)) = true
          · rw [if_pos hcond] at hk2
            simp only [Option.toList_some, List.mem_singleton] at hk2
            have hkp : k = [p.1] := by
              rw [← hpk, hres]
            have hs : s = p.1 := by
              have h := hk2.symm.trans hkp
              exact (List.cons.injEq s [] p.1 []).mp h |>.1
            have hflag : attrFlagged attrs s = true := by
              unfold attrFlagged
              rw [hs, find?_key_eq (by exact hpmem) hnd]
              exact hiff.1
            rw [hflag] at hcond
            simp at hcond
          · rw [if_neg hcond] at hk2
            simp at hk2

/-- C3 witness: the amended theorem applied at a composite-key
definition with two plain columns. -/
theorem C3_no_duplicate_pk_keys_witness :
    emittedPKKeys { primaryKey := some (.arr ["a", "b"]) }
      [("a", { type := "STRING" }), ("b", { type := "INTEGER" })] = [["a", "b"]] ∧
    (emittedPKKeys { primaryKey := some (.arr ["a", "b"]) }
      [("a", { type := "STRING" }), ("b", { type := "INTEGER" })]).Nodup := by
  have h := C3_no_duplicate_pk_keys { primaryKey := some (.arr ["a", "b"]) }
    [("a", { type := "STRING" }), ("b", { type := "INTEGER" })] (by decide)
  exact ⟨h.1 ["a", "b"] rfl, h.2 rfl (by decide)⟩

/-! ## C4: composite primary key emits exactly one table constraint -/

theorem pk_prefix_false_of_headC {s : String} (h : s.data.head? = some 'C') :
    strStartsWith "PRIMARY KEY" s = false := by
  unfold strStartsWith
  cases hs : s.data with
  | nil => rw [hs] at h; cases h
  | cons c tl =>
    rw [hs] at h
    simp only [List.head?_cons, Option.some.injEq] at h
    subst h
    show List.isPrefixOf ('P' :: "RIMARY KEY".data) ('C' :: tl) = false
    simp [List.isPrefixOf]

theorem filter_pk_of_headC (l : List String)
    (h : ∀ s ∈ l, s.data.head? = some 'C') :
    l.filter (fun s => strStartsWith "PRIMARY KEY" s) = [] := by
  rw [List.filter_eq_nil_iff]
  intro s hs
  simp [pk_prefix_false_of_headC (h s hs)]

theorem uniqueConstraintsOfAttr_headC (o : TableOptions) (n : String)
    (a : AttributeSpec) : ∀ s ∈ uniqueConstraintsOfAttr o n a, s.data.head? = some 'C' := by
  intro s hs
  unfold uniqueConstraintsOfAttr at hs
  match hu : a.unique with
  | some (.named nm) =>
    rw [hu] at hs
    dsimp only at hs
    by_cases hnm : nm ≠ ""
    · rw [if_pos hnm] at hs
      simp only [List.mem_singleton] at hs
      subst hs
      exact head?_append_of_head _
        (head?_append_of_head _
          (head?_append_of_head "CONSTRAINT " rfl _) _) _
    · rw [if_neg hnm] at hs
      cases hs
  | some (.obj (some nm)) =>
    rw [hu] at hs
    dsimp only at hs
    by_cases hnm : nm ≠ ""
    · rw [if_pos hnm] at hs
      simp only [List.mem_singleton] at hs
      subst hs
      exact head?_append_of_head _
        (head?_append_of_head _
          (head?_append_of_head "CONSTRAINT " rfl _) _) _
    · rw [if_neg hnm] at hs
      cases hs
  | some (.obj none) => rw [hu] at hs; dsimp only at hs; cases hs
  | some (.inline b) => rw [hu] at hs; dsimp only at hs; cases hs
  | none => rw [hu] at hs; dsimp only at hs; cases hs

theorem attrsUnique_headC (o : TableOptions) (attrs : List (String × AttributeSpec)) :
    ∀ s ∈ attrs.flatMap (fun p => uniqueConstraintsOfAttr o p.1 p.2),
      s.data.head? = some 'C' := by
  intro s hs
  rcases List.mem_flatMap.mp hs with ⟨p, _, hsp⟩
  exact uniqueConstraintsOfAttr_headC o p.1 p.2 s hsp

theorem uniqueTableConstraints_headC (o : TableOptions) :
    ∀ s ∈ uniqueTableConstraints o, s.data.head? = some 'C' := by
  intro s hs
  unfold uniqueTableConstraints at hs
  match hc : o.constraints with
  | none => rw [hc] at hs; cases hs
  | some c =>
    rw [hc] at hs
    dsimp only at hs
    match hu : c.unique with
    | none => rw [hu] at hs; cases hs
    | some entries =>
      rw [hu] at hs
      dsimp only at hs
      rcases List.mem_flatMap.mp hs with ⟨p, _, hsp⟩
      match hf : p.2 with
      | some (f :: fs) =>
        rw [hf] at hsp
        dsimp only at hsp
        simp only [List.mem_singleton] at hsp
        subst hsp
        exact head?_append_of_head _
          (head?_append_of_head _
            (head?_append_of_head "CONSTRAINT " rfl _) _) _
      | some [] => rw [hf] at hsp; cases hsp
      | none => rw [hf] at hsp; cases hsp

theorem checkTableConstraints_headC (o : TableOptions) :
    ∀ s ∈ checkTableConstraints o, s.data.head? = some 'C' := by
  intro s hs
  unfold checkTableConstraints at hs
  match hc : o.constraints with
  | none => rw [hc] at hs; cases hs
  | some c =>
    rw [hc] at hs
    dsimp only at hs
    match hu : c.check with
    | none => rw [hu] at hs; cases hs
    | some entries =>
      rw [hu] at hs
      dsimp only at hs
      rcases List.mem_map.mp hs with ⟨p, _, hsp⟩
      subst hsp
      exact head?_append_of_head _
        (head?_append_of_head _
          (head?_append_of_head "CONSTRAINT " rfl _) _) _

theorem fkConstraintOf_headC (n : String) (fk : FKSpec) :
    ∀ s ∈ fkConstraintOf n fk, s.data.head? = some 'C' := by
  intro s hs
  unfold fkConstraintOf at hs
  match hf : fk.fields, hr : fk.references with
  | some (f :: fs), some r =>
    rw [hf, hr] at hs
    dsimp only at hs
    simp only [List.mem_singleton] at hs
    subst hs
    exact head?_append_of_head _
      (head?_append_of_head _
        (head?_append_of_head _
          (head?_append_of_head _
            (head?_append_of_head _
              (head?_append_of_head _
                (head?_append_of_head _
                  (head?_append_of_head _
                    (head?_append_of_head _
                      (head?_append_of_head _
                        (head?_append_of_head "CONSTRAINT " rfl _) _) _) _) _) _) _) _) _) _) _
  | some (f :: fs), none => rw [hf, hr] at hs; cases hs
  | some [], _ => rw [hf] at hs; cases hs
  | none, _ => rw [hf] at hs; cases hs

theorem fkTableConstraints_headC (o : TableOptions) :
    ∀ s ∈ fkTableConstraints o, s.data.head? = some 'C' := by
  intro s hs
  unfold fkTableConstraints at hs
  match hc : o.constraints with
  | none => rw [hc] at hs; cases hs
  | some c =>
    rw [hc] at hs
    dsimp only at hs
    match hu : c.foreignKey with
    | none => rw [hu] at hs; cases hs
    | some entries =>
      rw [hu] at hs
      dsimp only at hs
      rcases List.mem_flatMap.mp hs with ⟨p, _, hsp⟩
      exact fkConstraintOf_headC p.1 p.2 s hsp

/-- C4: with options.primaryKey equal to the array a, b, the table
constraints carry exactly one PRIMARY KEY entry, namely
PRIMARY KEY (a, b), and no column emits a column-level PRIMARY KEY
clause. -/
theorem C4_composite_key_single_constraint (o : TableOptions)
    (attrs : List (String × AttributeSpec))
    (hopt : o.primaryKey = some (.arr ["a", "b"]))
    (_hA : attrFlagged attrs "a" = false)
    (_hB : attrFlagged attrs "b" = false)
    (hyg : ∀ p ∈ attrs, resolvedColName o p.1 ≠ "PRIMARY KEY" ∧
      mapDataType p.2.type ≠ "PRIMARY KEY") :
    (tableConstraints o attrs).filter (fun s => strStartsWith "PRIMARY KEY" s) =
      ["PRIMARY KEY (a, b)"] ∧
    ∀ p ∈ attrs, "PRIMARY KEY" ∉ columnParts o p.1 p.2 := by
  constructor
  · unfold tableConstraints
    rw [List.filter_append, List.filter_append, List.filter_append, List.filter_append]
    rw [filter_pk_of_headC _ (attrsUnique_headC o attrs),
        filter_pk_of_headC _ (uniqueTableConstraints_headC o),
        filter_pk_of_headC _ (checkTableConstraints_headC o),
        filter_pk_of_headC _ (fkTableConstraints_headC o)]
    simp only [List.append_nil, List.nil_append]
    unfold pkTableConstraints pkTableKey
    rw [hopt]
    dsimp only
    decide
  · intro p hp
    exact pk_notin_columnParts o p.1 p.2 (hyg p hp).1 (hyg p hp).2
      (Or.inr ⟨["a", "b"], hopt⟩)

/-- C4 witness: the theorem applied at a concrete two-column composite
definition. -/
theorem C4_composite_key_single_constraint_witness :
    (tableConstraints { primaryKey := some (.arr ["a", "b"]) }
      [("a", { type := "STRING" }), ("b", { type := "INTEGER" })]).filter
        (fun s => strStartsWith "PRIMARY KEY" s) = ["PRIMARY KEY (a, b)"] := by
  exact (C4_composite_key_single_constraint { primaryKey := some (.arr ["a", "b"]) }
    [("a", { type := "STRING" }), ("b", { type := "INTEGER" })]
    rfl rfl rfl (by decide)).1

/-! ## C7: foreign-key constraint entries -/

theorem strLast_append_rparen (x : String) : strLast (x ++ ")") = some ')' := by
  unfold strLast
  rw [String.data_append]
  exact List.getLast?_concat x.data

/-- C7: a table-level foreign-key entry with an empty (or non-array)
fields list or a missing references object is silently omitted; an entry
with nonempty fields and references but missing onDelete and onUpdate
emits exactly the base constraint text with those clauses absent, and
the constraint text carries no trailing whitespace (it ends in a closing
parenthesis). -/
theorem C7_fk_entry_policy (name : String) (fk : FKSpec) :
    ((fk.fields = none ∨ fk.fields = some [] ∨ fk.references = none) →
      fkConstraintOf name fk = []) ∧
    (∀ f fs r, fk.fields = some (f :: fs) → fk.references = some r →
      fk.onDelete = none → fk.onUpdate = none → fk.deferrable = false →
      fkConstraintOf name fk =
        ["CONSTRAINT " ++ name ++ " FOREIGN KEY (" ++ jsJoin ", " (f :: fs) ++ ") " ++
          "REFERENCES " ++ r.table ++ "(" ++ renderRefFields r.fields ++ ")"] ∧
      ∀ c ∈ fkConstraintOf name fk, strLast c = some ')') := by
  constructor
  · intro h
    unfold fkConstraintOf
    rcases h with h | h | h
    · rw [h]
    · rw [h]
    · rw [h]
      match hf : fk.fields with
      | none => rfl
      | some [] => rfl
      | some (f :: fs) => rfl
  · intro f fs r hf hr hd hu hdef
    have heq : fkConstraintOf name fk =
        ["CONSTRAINT " ++ name ++ " FOREIGN KEY (" ++ jsJoin ", " (f :: fs) ++ ") " ++
          "REFERENCES " ++ r.table ++ "(" ++ renderRefFields r.fields ++ ")"] := by
      unfold fkConstraintOf
      rw [hf, hr]
      dsimp only
      rw [hd, hu, hdef]
      simp [strTruthy, String.append_empty]
    refine ⟨heq, ?_⟩
    intro c hc
    rw [heq] at hc
    simp only [List.mem_singleton] at hc
    subst hc
    exact strLast_append_rparen _

/-- C7 witness: the theorem applied at concrete omitted and emitted
entries. -/
theorem C7_fk_entry_policy_witness :
    fkConstraintOf "fk0" { fields := some [] } = [] ∧
    fkConstraintOf "fk1"
      { fields := some ["uid"],
        references := some { table := "Users", fields := .single "id" } } =
      ["CONSTRAINT fk1 FOREIGN KEY (uid) REFERENCES Users(id)"] := by
  constructor
  · exact (C7_fk_entry_policy "fk0" { fields := some [] }).1 (Or.inr (Or.inl rfl))
  · have h := ((C7_fk_entry_policy "fk1"
      { fields := some ["uid"],
        references := some { table := "Users", fields := .single "id" } }).2
      "uid" [] { table := "Users", fields := .single "id" } rfl rfl rfl rfl rfl).1
    rw [h]
    exact congrArg (fun s => [s]) (by decide)

/-! ## C8: CREATE TABLE prefix and a single top-level parenthesized list -/

/-- State of the parenthesis scanner: current nesting depth, number of
completed top-level groups, and whether an unmatched closing parenthesis
was seen. -/
structure PScan where
  depth : Nat
  groups : Nat
  bad : Bool
deriving DecidableEq, Repr

/-- One scanner step. -/
def pstep (st : PScan) (c : Char) : PScan :=
  if c = '(' then { st with depth := st.depth + 1 }
  else if c = ')' then
    match st.depth with
    | 0 => { st with bad := true }
    | d + 1 =>
      { depth := d, groups := if d = 0 then st.groups + 1 else st.groups, bad := st.bad }
  else st

/-- Scan a character list from a given state. -/
def pscan (l : List Char) (st : PScan) : PScan := l.foldl pstep st

/-- Parenthesis profile of a string from the initial state. -/
def parenProfile (s : String) : PScan :=
  pscan s.data { depth := 0, groups := 0, bad := false }

/-- No parenthesis characters at all. -/
def parenFreeL (l : List Char) : Bool := l.all (fun c => !(c = '(' || c = ')'))

/-- Balanced parenthesis words over arbitrary other characters. -/
inductive Matched : List Char → Prop
  | nil : Matched []
  | chr {c : Char} (h1 : c ≠ '(') (h2 : c ≠ ')') {l : List Char} :
      Matched l → Matched (c :: l)
  | wrap {a b : List Char} : Matched a → Matched b → Matched ('(' :: (a ++ ')' :: b))

theorem parenFreeL_cons {c : Char} {cs : List Char} (h : parenFreeL (c :: cs) = true) :
    c ≠ '(' ∧ c ≠ ')' ∧ parenFreeL cs = true := by
  unfold parenFreeL at h ⊢
  rw [List.all_cons, Bool.and_eq_true] at h
  obtain ⟨h1, h2⟩ := h
  refine ⟨?_, ?_, h2⟩
  · intro he
    rw [he] at h1
    simp at h1
  · intro he
    rw [he] at h1
    simp at h1

theorem matched_append {a b : List Char} (ha : Matched a) (hb : Matched b) :
    Matched (a ++ b) := by
  induction ha with
  | nil => exact hb
  | chr h1 h2 _ ih => exact Matched.chr h1 h2 ih
  | wrap ha1 hb1 ih1 ih2 =>
    rename_i a1 b1
    rw [show ('(' :: (a1 ++ ')' :: b1)) ++ b = '(' :: (a1 ++ ')' :: (b1 ++ b)) by simp]
    exact Matched.wrap ha1 ih2

theorem matched_of_parenFree {l : List Char} (h : parenFreeL l = true) : Matched l := by
  induction l with
  | nil => exact Matched.nil
  | cons c cs ih =>
    obtain ⟨h1, h2, h3⟩ := parenFreeL_cons h
    exact Matched.chr h1 h2 (ih h3)

theorem matched_pw (pre mid post : List Char) (hpre : parenFreeL pre = true)
    (hmid : Matched mid) (hpost : Matched post) :
    Matched (pre ++ '(' :: (mid ++ ')' :: post)) := by
  induction pre with
  | nil => exact Matched.wrap hmid hpost
  | cons c cs ih =>
    obtain ⟨h1, h2, h3⟩ := parenFreeL_cons hpre
    exact Matched.chr h1 h2 (ih h3)

theorem pstep_other {st : PScan} {c : Char} (h1 : c ≠ '(') (h2 : c ≠ ')') :
    pstep st c = st := by
  unfold pstep
  rw [if_neg h1, if_neg h2]

theorem pscan_parenFree {l : List Char} (h : parenFreeL l = true) (st : PScan) :
    pscan l st = st := by
  induction l generalizing st with
  | nil => rfl
  | cons c cs ih =>
    obtain ⟨h1, h2, h3⟩ := parenFreeL_cons h
    unfold pscan
    rw [List.foldl_cons, pstep_other h1 h2]
    exact ih h3 st

theorem pscan_matched {l : List Char} (h : Matched l) :
    ∀ st : PScan, 1 ≤ st.depth → st.bad = false → pscan l st = st := by
  induction h with
  | nil => intro st _ _; rfl
  | chr h1 h2 _ ih =>
    intro st hd hb
    unfold pscan
    rw [List.foldl_cons, pstep_other h1 h2]
    exact ih st hd hb
  | wrap ha hb iha ihb =>
    intro st hd hb
    unfold pscan
    rw [List.foldl_cons]
    have hopen : pstep st '(' = { st with depth := st.depth + 1 } := by
      unfold pstep
      rw [if_pos rfl]
    rw [hopen, List.foldl_append]
    have h1 : pscan _ { st with depth := st.depth + 1 } = { st with depth := st.depth + 1 } :=
      iha { st with depth := st.depth + 1 } (by show 1 ≤ st.depth + 1; omega) hb
    unfold pscan at h1
    rw [h1, List.foldl_cons]
    have hclose : pstep { st with depth := st.depth + 1 } ')' = st := by
      unfold pstep
      rw [if_neg (by decide), if_pos rfl]
      show ({ depth := st.depth,
              groups := if st.depth = 0 then st.groups + 1 else st.groups,
              bad := st.bad } : PScan) = st
      rw [if_neg (show ¬ st.depth = 0 by omega)]
    rw [hclose]
    exact ihb st hd hb

theorem pscan_structure (A body B : List Char) (hA : parenFreeL A = true)
    (hbody : Matched body) (hB : parenFreeL B = true) :
    pscan (A ++ '(' :: (body ++ ')' :: B)) { depth := 0, groups := 0, bad := false } =
      { depth := 0, groups := 1, bad := false } := by
  unfold pscan
  rw [List.foldl_append]
  have h1 := pscan_parenFree hA { depth := 0, groups := 0, bad := false }
  unfold pscan at h1
  rw [h1, List.foldl_cons]
  rw [show pstep { depth := 0, groups := 0, bad := false } '(' =
    { depth := 1, groups := 0, bad := false } by decide]
  rw [List.foldl_append]
  have h2 := pscan_matched hbody { depth := 1, groups := 0, bad := false }
    (by show 1 ≤ 1; omega) rfl
  unfold pscan at h2
  rw [h2, List.foldl_cons]
  rw [show pstep { depth := 1, groups := 0, bad := false } ')' =
    { depth := 0, groups := 1, bad := false } by decide]
  have h3 := pscan_parenFree hB { depth := 0, groups := 1, bad := false }
  unfold pscan at h3
  rw [h3]

theorem parenFreeL_append {a b : List Char} (ha : parenFreeL a = true)
    (hb : parenFreeL b = true) : parenFreeL (a ++ b) = true := by
  unfold parenFreeL at *
  rw [List.all_append, ha, hb]
  rfl

theorem parenFreeL_str_append {a b : String} (ha : parenFreeL a.data = true)
    (hb : parenFreeL b.data = true) : parenFreeL (a ++ b).data = true := by
  rw [String.data_append]
  exact parenFreeL_append ha hb

theorem parenFreeL_jsJoin (sep : String) (hsep : parenFreeL sep.data = true)
    (l : List String) (h : ∀ s ∈ l, parenFreeL s.data = true) :
    parenFreeL (jsJoin sep l).data = true := by
  induction l with
  | nil => rfl
  | cons x xs ih =>
    cases xs with
    | nil => exact h x (List.mem_singleton.mpr rfl)
    | cons y rest =>
      show parenFreeL (x ++ sep ++ jsJoin sep (y :: rest)).data = true
      exact parenFreeL_str_append
        (parenFreeL_str_append (h x (by simp)) hsep)
        (ih (fun s hs => h s (List.mem_cons_of_mem x hs)))

theorem matched_jsJoin (sep : String) (hsep : parenFreeL sep.data = true)
    (l : List String) (h : ∀ s ∈ l, Matched s.data) :
    Matched (jsJoin sep l).data := by
  induction l with
  | nil => exact Matched.nil
  | cons x xs ih =>
    cases xs with
    | nil => exact h x (List.mem_singleton.mpr rfl)
    | cons y rest =>
      show Matched (x ++ sep ++ jsJoin sep (y :: rest)).data
      rw [String.data_append, String.data_append]
      exact matched_append
        (matched_append (h x (by simp)) (matched_of_parenFree hsep))
        (ih (fun s hs => h s (List.mem_cons_of_mem x hs)))

theorem matched_str_pw (pre mid post : String) (hpre : parenFreeL pre.data = true)
    (hmid : Matched mid.data) (hpost : Matched post.data) :
    Matched (pre ++ "(" ++ mid ++ ")" ++ post).data := by
  have hd : (pre ++ "(" ++ mid ++ ")" ++ post).data =
      pre.data ++ '(' :: (mid.data ++ ')' :: post.data) := by
    simp only [String.data_append]
    simp [List.append_assoc]
  rw [hd]
  exact matched_pw _ _ _ hpre hmid hpost

/-- Paren-safety of one attribute: all raw strings the column emits are
free of parenthesis characters. -/
def attrParenSafe (o : TableOptions) (p : String × AttributeSpec) : Bool :=
  parenFreeL (resolvedColName o p.1).data && parenFreeL (mapDataType p.2.type).data
  && (match p.2.unique with
      | some (.named s) => parenFreeL s.data
      | some (.obj (some n)) => parenFreeL n.data
      | _ => true)
  && (match p.2.defaultValue with
      | some v => parenFreeL (formatDefaultValue v).data
      | none => true)
  && (match p.2.check with | some c => parenFreeL c.data | none => true)
  && (match p.2.collate with | some c => parenFreeL c.data | none => true)
  && (match p.2.generated with | some g => parenFreeL g.expression.data | none => true)
  && (match p.2.references with
      | some r => parenFreeL r.table.data && parenFreeL r.column.data
      | none => true)
  && (match p.2.onDelete with | some a => parenFreeL a.data | none => true)
  && (match p.2.onUpdate with | some a => parenFreeL a.data | none => true)

/-- Paren-safety of one table-level foreign-key entry. -/
def fkParenSafe (p : String × FKSpec) : Bool :=
  parenFreeL p.1.data
  && (match p.2.fields with
      | some l => l.all (fun f => parenFreeL f.data)
      | none => true)
  && (match p.2.references with
      | some r => parenFreeL r.table.data &&
        (match r.fields with
         | .list l => l.all (fun f => parenFreeL f.data)
         | .single s => parenFreeL s.data)
      | none => true)
  && (match p.2.onDelete with | some a => parenFreeL a.data | none => true)
  && (match p.2.onUpdate with | some a => parenFreeL a.data | none => true)

/-- Paren-safety of the table options. -/
def optionsParenSafe (o : TableOptions) : Bool :=
  (match o.primaryKey with
   | some (.arr l) => l.all (fun s => parenFreeL s.data)
   | some (.str s) => parenFreeL s.data
   | none => true)
  && (match o.constraints with
      | none => true
      | some c =>
        (match c.unique with
         | some entries => entries.all (fun p => parenFreeL p.1.data &&
             (match p.2 with
              | some fs => fs.all (fun f => parenFreeL f.data)
              | none => true))
         | none => true)
        && (match c.check with
            | some entries => entries.all (fun p => parenFreeL p.1.data && parenFreeL p.2.data)
            | none => true)
        && (match c.foreignKey with
            | some entries => entries.all fkParenSafe
            | none => true))

/-- Paren-safety of a whole definition: the table name, every raw
attribute string and every raw constraint string is free of parenthesis
characters (the generator itself supplies all structural parentheses). -/
def defParenSafe (d : ModelDefinition) : Bool :=
  parenFreeL d.tableName.data && d.attributes.all (attrParenSafe d.options)
  && optionsParenSafe d.options

theorem matched_check_part (e : String) (he : parenFreeL e.data = true) :
    Matched ("CHECK (" ++ e ++ ")").data := by
  rw [show ("CHECK (" ++ e ++ ")") = "CHECK " ++ "(" ++ e ++ ")" ++ "" by
    rw [String.append_empty]
    rw [show ("CHECK (" : String) = "CHECK " ++ "(" from by decide]]
  exact matched_str_pw _ _ _ (by decide) (matched_of_parenFree he) Matched.nil

theorem matched_generated_part (e st : String) (he : parenFreeL e.data = true)
    (hst : parenFreeL st.data = true) :
    Matched ("GENERATED ALWAYS AS (" ++ e ++ ") " ++ st).data := by
  rw [show ("GENERATED ALWAYS AS (" ++ e ++ ") " ++ st) =
      "GENERATED ALWAYS AS " ++ "(" ++ e ++ ")" ++ (" " ++ st) by
    apply String.ext
    simp [List.append_assoc]]
  exact matched_str_pw _ _ _ (by decide) (matched_of_parenFree he)
    (by
      rw [String.data_append]
      exact matched_of_parenFree (parenFreeL_append (by decide) hst))

theorem matched_references_part (t c : String) (ht : parenFreeL t.data = true)
    (hc : parenFreeL c.data = true) :
    Matched ("REFERENCES " ++ t ++ "(" ++ c ++ ")").data := by
  rw [show ("REFERENCES " ++ t ++ "(" ++ c ++ ")") =
      ("REFERENCES " ++ t) ++ "(" ++ c ++ ")" ++ "" by rw [String.append_empty]]
  exact matched_str_pw _ _ _ (parenFreeL_str_append (by decide) ht)
    (matched_of_parenFree hc) Matched.nil

theorem matched_fk_base (nm j t rf : String) (hnm : parenFreeL nm.data = true)
    (hj : parenFreeL j.data = true) (ht : parenFreeL t.data = true)
    (hrf : parenFreeL rf.data = true) :
    Matched ("CONSTRAINT " ++ nm ++ " FOREIGN KEY (" ++ j ++ ") " ++
      "REFERENCES " ++ t ++ "(" ++ rf ++ ")").data := by
  rw [show ("CONSTRAINT " ++ nm ++ " FOREIGN KEY (" ++ j ++ ") " ++
      "REFERENCES " ++ t ++ "(" ++ rf ++ ")") =
      ("CONSTRAINT " ++ nm ++ " FOREIGN KEY ") ++ "(" ++ j ++ ")" ++
        ((" REFERENCES " ++ t) ++ "(" ++ rf ++ ")" ++ "") by
    apply String.ext
    simp [List.append_assoc]]
  refine matched_str_pw _ _ _ ?_ (matched_of_parenFree hj) ?_
  · exact parenFreeL_str_append (parenFreeL_str_append (by decide) hnm) (by decide)
  · exact matched_str_pw _ _ _ (parenFreeL_str_append (by decide) ht)
      (matched_of_parenFree hrf) Matched.nil

theorem columnParts_matched (o : TableOptions) (p : String × AttributeSpec)
    (hsafe : attrParenSafe o p = true) :
    ∀ s ∈ columnParts o p.1 p.2, Matched s.data := by
  unfold attrParenSafe at hsafe
  simp only [Bool.and_eq_true] at hsafe
  obtain ⟨⟨⟨⟨⟨⟨⟨⟨⟨hcol, htype⟩, huniq⟩, hdef⟩, hcheck⟩, hcoll⟩, hgen⟩, href⟩, hdel⟩, hupd⟩ :=
    hsafe
  intro s hs
  unfold columnParts at hs
  simp only [List.mem_append] at hs
  rcases hs with ((((((((hs | hs) | hs) | hs) | hs) | hs) | hs) | hs) | hs)
  · rcases List.mem_cons.mp hs with h | h
    · subst h
      exact matched_of_parenFree hcol
    · rcases List.mem_cons.mp h with h1 | h1
      · subst h1
        exact matched_of_parenFree htype
      · cases h1
  · have hlit : s = "PRIMARY KEY" ∨ s = "AUTOINCREMENT" := by
      split at hs
      · split at hs
        · rcases List.mem_append.mp hs with h1 | h1
          · exact Or.inl (List.mem_singleton.mp h1)
          · split at h1
            · exact Or.inr (List.mem_singleton.mp h1)
            · cases h1
        · cases hs
      · cases hs
    rcases hlit with rfl | rfl
    · exact matched_of_parenFree (by decide)
    · exact matched_of_parenFree (by decide)
  · have hlit : s = "NOT NULL" := by
      split at hs
      · exact List.mem_singleton.mp hs
      · cases hs
    subst hlit
    exact matched_of_parenFree (by decide)
  · have hlit : s = "UNIQUE" := by
      match hu : p.2.unique with
      | some (.inline true) =>
        rw [hu] at hs
        exact List.mem_singleton.mp hs
      | some (.inline false) => rw [hu] at hs; cases hs
      | some (.named nm) => rw [hu] at hs; cases hs
      | some (.obj nm) => rw [hu] at hs; cases hs
      | none => rw [hu] at hs; cases hs
    subst hlit
    exact matched_of_parenFree (by decide)
  · match hv : p.2.defaultValue with
    | some v =>
      rw [hv] at hs hdef
      simp only [List.mem_singleton] at hs
      subst hs
      rw [String.data_append]
      exact matched_of_parenFree (parenFreeL_append (by decide) hdef)
    | none => rw [hv] at hs; cases hs
  · split at hs
    · simp only [List.mem_singleton] at hs
      subst hs
      match hc : p.2.check with
      | some c =>
        rw [hc] at hcheck
        show Matched ("CHECK (" ++ c ++ ")").data
        exact matched_check_part c hcheck
      | none =>
        show Matched ("CHECK (" ++ "" ++ ")").data
        exact matched_check_part "" (by decide)
    · cases hs
  · split at hs
    · simp only [List.mem_singleton] at hs
      subst hs
      match hc : p.2.collate with
      | some c =>
        rw [hc] at hcoll
        show Matched ("COLLATE " ++ c).data
        rw [String.data_append]
        exact matched_of_parenFree (parenFreeL_append (by decide) hcoll)
      | none =>
        show Matched ("COLLATE " ++ "").data
        exact matched_of_parenFree (by decide)
    · cases hs
  · match hg : p.2.generated with
    | some g =>
      rw [hg] at hs hgen
      simp only [List.mem_singleton] at hs
      subst hs
      exact matched_generated_part g.expression _ hgen
        (by cases g.stored <;> decide)
    | none => rw [hg] at hs; cases hs
  · match hr : p.2.references with
    | some r =>
      rw [hr] at hs href
      rw [Bool.and_eq_true] at href
      simp only [List.mem_append] at hs
      rcases hs with ((h1 | h1) | h1) | h1
      · simp only [List.mem_singleton] at h1
        subst h1
        exact matched_references_part r.table r.column href.1 href.2
      · split at h1
        · simp only [List.mem_singleton] at h1
          subst h1
          rw [String.data_append]
          refine matched_of_parenFree (parenFreeL_append (by decide) ?_)
          match ha : p.2.onDelete with
          | some a =>
            rw [ha] at hdel
            show parenFreeL ((some a).getD "").data = true
            exact hdel
          | none =>
            show parenFreeL ((none : Option String).getD "").data = true
            decide
        · cases h1
      · split at h1
        · simp only [List.mem_singleton] at h1
          subst h1
          rw [String.data_append]
          refine matched_of_parenFree (parenFreeL_append (by decide) ?_)
          match ha : p.2.onUpdate with
          | some a =>
            rw [ha] at hupd
            show parenFreeL ((some a).getD "").data = true
            exact hupd
          | none =>
            show parenFreeL ((none : Option String).getD "").data = true
            decide
        · cases h1
      · split at h1
        · simp only [List.mem_singleton] at h1
          subst h1
          rw [String.data_append]
          exact matched_of_parenFree
            (parenFreeL_append (by decide) (by cases p.2.deferred <;> decide))
        · cases h1
    | none => rw [hr] at hs; cases hs

theorem matched_litwrap (pre e : String) (hpre : parenFreeL pre.data = true)
    (he : parenFreeL e.data = true) : Matched (pre ++ "(" ++ e ++ ")").data := by
  rw [show pre ++ "(" ++ e ++ ")" = pre ++ "(" ++ e ++ ")" ++ "" by
    rw [String.append_empty]]
  exact matched_str_pw _ _ _ hpre (matched_of_parenFree he) Matched.nil

theorem matched_named_unique (nm col : String) (hnm : parenFreeL nm.data = true)
    (hcol : parenFreeL col.data = true) :
    Matched ("CONSTRAINT " ++ nm ++ " UNIQUE (" ++ col ++ ")").data := by
  rw [show ("CONSTRAINT " ++ nm ++ " UNIQUE (" ++ col ++ ")") =
      ("CONSTRAINT " ++ nm ++ " UNIQUE ") ++ "(" ++ col ++ ")" by
    apply String.ext
    simp [List.append_assoc]]
  exact matched_litwrap _ _
    (parenFreeL_str_append (parenFreeL_str_append (by decide) hnm) (by decide)) hcol

theorem matched_named_check (nm e : String) (hnm : parenFreeL nm.data = true)
    (he : parenFreeL e.data = true) :
    Matched ("CONSTRAINT " ++ nm ++ " CHECK (" ++ e ++ ")").data := by
  rw [show ("CONSTRAINT " ++ nm ++ " CHECK (" ++ e ++ ")") =
      ("CONSTRAINT " ++ nm ++ " CHECK ") ++ "(" ++ e ++ ")" by
    apply String.ext
    simp [List.append_assoc]]
  exact matched_litwrap _ _
    (parenFreeL_str_append (parenFreeL_str_append (by decide) hnm) (by decide)) he

theorem matched_pk_table (j : String) (hj : parenFreeL j.data = true) :
    Matched ("PRIMARY KEY (" ++ j ++ ")").data := by
  rw [show ("PRIMARY KEY (" ++ j ++ ")") = "PRIMARY KEY " ++ "(" ++ j ++ ")" by
    apply String.ext
    simp [List.append_assoc]]
  exact matched_litwrap _ _ (by decide) hj

theorem uniqueConstraintsOfAttr_matched (o : TableOptions) (p : String × AttributeSpec)
    (hsafe : attrParenSafe o p = true) :
    ∀ s ∈ uniqueConstraintsOfAttr o p.1 p.2, Matched s.data := by
  unfold attrParenSafe at hsafe
  simp only [Bool.and_eq_true] at hsafe
  obtain ⟨⟨⟨⟨⟨⟨⟨⟨⟨hcol, _⟩, huniq⟩, _⟩, _⟩, _⟩, _⟩, _⟩, _⟩, _⟩ := hsafe
  intro s hs
  unfold uniqueConstraintsOfAttr at hs
  match hu : p.2.unique with
  | some (.named nm) =>
    rw [hu] at hs huniq
    dsimp only at hs
    by_cases hnm : nm ≠ ""
    · rw [if_pos hnm] at hs
      simp only [List.mem_singleton] at hs
      subst hs
      exact matched_named_unique nm _ huniq hcol
    · rw [if_neg hnm] at hs
      cases hs
  | some (.obj (some nm)) =>
    rw [hu] at hs huniq
    dsimp only at hs
    by_cases hnm : nm ≠ ""
    · rw [if_pos hnm] at hs
      simp only [List.mem_singleton] at hs
      subst hs
      exact matched_named_unique nm _ huniq hcol
    · rw [if_neg hnm] at hs
      cases hs
  | some (.obj none) => rw [hu] at hs; cases hs
  | some (.inline b) => rw [hu] at hs; cases hs
  | none => rw [hu] at hs; cases hs

theorem list_all_parenFree {l : List String} (h : l.all (fun f => parenFreeL f.data) = true) :
    ∀ s ∈ l, parenFreeL s.data = true := by
  intro s hs
  exact (List.all_eq_true.mp h) s hs

theorem pkTableConstraints_matched (o : TableOptions)
    (attrs : List (String × AttributeSpec)) (hopts : optionsParenSafe o = true) :
    ∀ s ∈ pkTableConstraints o attrs, Matched s.data := by
  unfold optionsParenSafe at hopts
  simp only [Bool.and_eq_true] at hopts
  obtain ⟨hpk, _⟩ := hopts
  intro s hs
  unfold pkTableConstraints pkTableKey at hs
  match hp : o.primaryKey with
  | none => rw [hp] at hs; cases hs
  | some (.arr l) =>
    rw [hp] at hs hpk
    dsimp only at hs
    simp only [Option.toList_some, List.map_cons, List.map_nil, List.mem_singleton] at hs
    subst hs
    exact matched_pk_table _
      (parenFreeL_jsJoin ", " (by decide) l (list_all_parenFree hpk))
  | some (.str t) =>
    rw [hp] at hs hpk
    dsimp only at hs
    by_cases hc : (t ≠ "" && !(attrFlagged attrs t)) = true
    · rw [if_pos hc] at hs
      simp only [Option.toList_some, List.map_cons, List.map_nil, List.mem_singleton] at hs
      subst hs
      exact matched_pk_table _
        (parenFreeL_jsJoin ", " (by decide) [t] (by
          intro x hx
          rw [List.mem_singleton] at hx
          subst hx
          exact hpk))
    · rw [if_neg hc] at hs
      cases hs

theorem uniqueTableConstraints_matched (o : TableOptions)
    (hopts : optionsParenSafe o = true) :
    ∀ s ∈ uniqueTableConstraints o, Matched s.data := by
  unfold optionsParenSafe at hopts
  simp only [Bool.and_eq_true] at hopts
  obtain ⟨_, hcons⟩ := hopts
  intro s hs
  unfold uniqueTableConstraints at hs
  match hc : o.constraints with
  | none => rw [hc] at hs; cases hs
  | some c =>
    rw [hc] at hs hcons
    dsimp only at hs
    simp only [Bool.and_eq_true] at hcons
    obtain ⟨⟨hun, _⟩, _⟩ := hcons
    match hu : c.unique with
    | none => rw [hu] at hs; cases hs
    | some entries =>
      rw [hu] at hs hun
      dsimp only at hs
      rcases List.mem_flatMap.mp hs with ⟨p, hpmem, hsp⟩
      have hpsafe := (List.all_eq_true.mp hun) p hpmem
      simp only [Bool.and_eq_true] at hpsafe
      obtain ⟨hname, hfields⟩ := hpsafe
      match hf : p.2 with
      | some (f :: fs) =>
        rw [hf] at hsp hfields
        dsimp only at hsp
        simp only [List.mem_singleton] at hsp
        subst hsp
        exact matched_named_unique _ _ hname
          (parenFreeL_jsJoin ", " (by decide) (f :: fs) (list_all_parenFree hfields))
      | some [] => rw [hf] at hsp; cases hsp
      | none => rw [hf] at hsp; cases hsp

theorem checkTableConstraints_matched (o : TableOptions)
    (hopts : optionsParenSafe o = true) :
    ∀ s ∈ checkTableConstraints o, Matched s.data := by
  unfold optionsParenSafe at hopts
  simp only [Bool.and_eq_true] at hopts
  obtain ⟨_, hcons⟩ := hopts
  intro s hs
  unfold checkTableConstraints at hs
  match hc : o.constraints with
  | none => rw [hc] at hs; cases hs
  | some c =>
    rw [hc] at hs hcons
    dsimp only at hs
    simp only [Bool.and_eq_true] at hcons
    obtain ⟨⟨_, hch⟩, _⟩ := hcons
    match hu : c.check with
    | none => rw [hu] at hs; cases hs
    | some entries =>
      rw [hu] at hs hch
      dsimp only at hs
      rcases List.mem_map.mp hs with ⟨p, hpmem, hsp⟩
      have hpsafe := (List.all_eq_true.mp hch) p hpmem
      simp only [Bool.and_eq_true] at hpsafe
      subst hsp
      exact matched_named_check _ _ hpsafe.1 hpsafe.2

theorem matched_ite_empty {c : Prop} [Decidable c] {x : String}
    (hx : Matched x.data) : Matched (if c then x else "").data := by
  split
  · exact hx
  · exact Matched.nil

theorem fkConstraintOf_matched (p : String × FKSpec) (hsafe : fkParenSafe p = true) :
    ∀ s ∈ fkConstraintOf p.1 p.2, Matched s.data := by
  unfold fkParenSafe at hsafe
  simp only [Bool.and_eq_true] at hsafe
  obtain ⟨⟨⟨⟨hname, hfields⟩, href⟩, hdel⟩, hupd⟩ := hsafe
  intro s hs
  unfold fkConstraintOf at hs
  match hf : p.2.fields, hr : p.2.references with
  | some (f :: fs), some r =>
    rw [hf] at hs hfields
    rw [hr] at hs href
    dsimp only at hs
    simp only [List.mem_singleton] at hs
    subst hs
    rw [String.data_append, String.data_append, String.data_append]
    have hjoin : parenFreeL (jsJoin ", " (f :: fs)).data = true :=
      parenFreeL_jsJoin ", " (by decide) (f :: fs) (list_all_parenFree hfields)
    have htab : parenFreeL r.table.data = true := by
      have := href
      simp only [Bool.and_eq_true] at this
      exact this.1
    have hrf : parenFreeL (renderRefFields r.fields).data = true := by
      have h2 : (match r.fields with
          | .list l => l.all (fun f => parenFreeL f.data)
          | .single s => parenFreeL s.data) = true := by
        have := href
        simp only [Bool.and_eq_true] at this
        exact this.2
      unfold renderRefFields
      match hrr : r.fields with
      | .list l =>
        rw [hrr] at h2
        exact parenFreeL_jsJoin ", " (by decide) l (list_all_parenFree h2)
      | .single t =>
        rw [hrr] at h2
        exact h2
    refine matched_append (matched_append (matched_append ?_ ?_) ?_) ?_
    · exact matched_fk_base p.1 _ r.table _ hname hjoin htab hrf
    · refine matched_ite_empty ?_
      rw [String.data_append]
      refine matched_of_parenFree (parenFreeL_append (by decide) ?_)
      match ha : p.2.onDelete with
      | some a =>
        rw [ha] at hdel
        show parenFreeL ((some a).getD "").data = true
        exact hdel
      | none =>
        show parenFreeL ((none : Option String).getD "").data = true
        decide
    · refine matched_ite_empty ?_
      rw [String.data_append]
      refine matched_of_parenFree (parenFreeL_append (by decide) ?_)
      match ha : p.2.onUpdate with
      | some a =>
        rw [ha] at hupd
        show parenFreeL ((some a).getD "").data = true
        exact hupd
      | none =>
        show parenFreeL ((none : Option String).getD "").data = true
        decide
    · refine matched_ite_empty ?_
      rw [String.data_append]
      exact matched_of_parenFree
        (parenFreeL_append (by decide) (by cases p.2.deferred <;> decide))
  | some (f :: fs), none => rw [hf, hr] at hs; cases hs
  | some [], _ => rw [hf] at hs; cases hs
  | none, _ => rw [hf] at hs; cases hs

theorem fkTableConstraints_matched (o : TableOptions)
    (hopts : optionsParenSafe o = true) :
    ∀ s ∈ fkTableConstraints o, Matched s.data := by
  unfold optionsParenSafe at hopts
  simp only [Bool.and_eq_true] at hopts
  obtain ⟨_, hcons⟩ := hopts
  intro s hs
  unfold fkTableConstraints at hs
  match hc : o.constraints with
  | none => rw [hc] at hs; cases hs
  | some c =>
    rw [hc] at hs hcons
    dsimp only at hs
    simp only [Bool.and_eq_true] at hcons
    obtain ⟨_, hfk⟩ := hcons
    match hu : c.foreignKey with
    | none => rw [hu] at hs; cases hs
    | some entries =>
      rw [hu] at hs hfk
      dsimp only at hs
      rcases List.mem_flatMap.mp hs with ⟨p, hpmem, hsp⟩
      exact fkConstraintOf_matched p ((List.all_eq_true.mp hfk) p hpmem) s hsp

theorem allDefinitions_matched (d : ModelDefinition) (hsafe : defParenSafe d = true) :
    ∀ s ∈ allDefinitions d.options d.attributes, Matched s.data := by
  unfold defParenSafe at hsafe
  simp only [Bool.and_eq_true] at hsafe
  obtain ⟨⟨_, hattrs⟩, hopts⟩ := hsafe
  intro s hs
  unfold allDefinitions at hs
  rcases List.mem_append.mp hs with h | h
  · unfold columnDefs at h
    rcases List.mem_map.mp h with ⟨p, hpmem, hsp⟩
    subst hsp
    exact matched_jsJoin " " (by decide) _
      (columnParts_matched d.options p ((List.all_eq_true.mp hattrs) p hpmem))
  · unfold tableConstraints at h
    simp only [List.mem_append] at h
    rcases h with (((h | h) | h) | h) | h
    · rcases List.mem_flatMap.mp h with ⟨p, hpmem, hsp⟩
      exact uniqueConstraintsOfAttr_matched d.options p
        ((List.all_eq_true.mp hattrs) p hpmem) s hsp
    · exact pkTableConstraints_matched d.options d.attributes hopts s h
    · exact uniqueTableConstraints_matched d.options hopts s h
    · exact checkTableConstraints_matched d.options hopts s h
    · exact fkTableConstraints_matched d.options hopts s h

theorem body_matched (d : ModelDefinition) (hsafe : defParenSafe d = true) :
    Matched (jsJoin ", " (allDefinitions d.options d.attributes)).data :=
  matched_jsJoin ", " (by decide) _ (allDefinitions_matched d hsafe)

theorem dropWhile_id_of_head {l : List Char} {c : Char} (h : l.head? = some c)
    (hw : isJsWhitespace c = false) : l.dropWhile isJsWhitespace = l := by
  cases l with
  | nil => rfl
  | cons a tl =>
    simp only [List.head?_cons, Option.some.injEq] at h
    subst h
    rw [List.dropWhile_cons_of_neg (by rw [hw]; exact Bool.false_ne_true)]

theorem head?_append_list {l m : List Char} {c : Char} (h : l.head? = some c) :
    (l ++ m).head? = some c := by
  cases l with
  | nil => cases h
  | cons a tl =>
    simp only [List.head?_cons, Option.some.injEq] at h
    subst h
    rfl

theorem jsTrim_id {s : String} {c e : Char}
    (hc : s.data.head? = some c) (hcw : isJsWhitespace c = false)
    (he : s.data.getLast? = some e) (hew : isJsWhitespace e = false) :
    jsTrim s = s := by
  apply String.ext
  show ((s.data.dropWhile isJsWhitespace).reverse.dropWhile isJsWhitespace).reverse = s.data
  rw [dropWhile_id_of_head hc hcw]
  rw [dropWhile_id_of_head (by rw [List.head?_reverse]; exact he) hew]
  exact List.reverse_reverse _

theorem jsTrim_trailing_space {X : String} {c : Char}
    (hhead : X.data.head? = some c) (hw : isJsWhitespace c = false) :
    (jsTrim (X ++ ") ")).data = X.data ++ [')'] := by
  show (((X ++ ") ").data.dropWhile isJsWhitespace).reverse.dropWhile
    isJsWhitespace).reverse = X.data ++ [')']
  have h1 : (X ++ ") ").data = (X.data ++ [')']) ++ [' '] := by
    rw [String.data_append]
    rw [show (") " : String).data = [')', ' '] from rfl]
    simp [List.append_assoc]
  rw [h1]
  rw [dropWhile_id_of_head (head?_append_list (head?_append_list hhead)) hw]
  rw [List.reverse_append]
  rw [show ([' '] : List Char).reverse = [' '] from rfl]
  rw [show ([' '] : List Char) ++ (X.data ++ [')']).reverse =
    ' ' :: (X.data ++ [')']).reverse from rfl]
  rw [List.dropWhile_cons_of_pos (by decide)]
  rw [dropWhile_id_of_head (by rw [List.head?_reverse]; exact List.getLast?_concat _)
    (by decide)]
  exact List.reverse_reverse _

theorem startsWith_CT {s : String} (rest : List Char)
    (h : s.data = "CREATE TABLE ".data ++ rest) : strStartsWith "CREATE TABLE" s = true := by
  unfold strStartsWith
  rw [h]
  rw [List.isPrefixOf_iff_prefix]
  refine ⟨' ' :: rest, ?_⟩
  rw [show ("CREATE TABLE " : String).data = "CREATE TABLE".data ++ [' '] from rfl]
  simp [List.append_assoc]

theorem pscan_data_gen (ine tn : String) (body tail : List Char)
    (hine : parenFreeL ine.data = true) (htn : parenFreeL tn.data = true)
    (hbody : Matched body) (htail : parenFreeL tail = true) :
    pscan ("CREATE TABLE ".data ++ ine.data ++ tn.data ++ " (".data ++ body ++ [')'] ++ tail)
      { depth := 0, groups := 0, bad := false } = { depth := 0, groups := 1, bad := false } := by
  have heq : "CREATE TABLE ".data ++ ine.data ++ tn.data ++ " (".data ++ body ++ [')'] ++ tail
      = ("CREATE TABLE ".data ++ ine.data ++ tn.data ++ " ".data) ++
          '(' :: (body ++ ')' :: tail) := by
    rw [show (" (" : String).data = " ".data ++ ['('] from rfl]
    simp [List.append_assoc]
  rw [heq]
  exact pscan_structure _ _ _
    (parenFreeL_append (parenFreeL_append (parenFreeL_append (by decide) hine) htn)
      (by decide))
    hbody htail

theorem tableOptionsList_mem (o : TableOptions) :
    ∀ s ∈ tableOptionsList o, s = "STRICT" ∨ s = "WITHOUT ROWID" ∨ s = "TEMPORARY" := by
  intro s hs
  unfold tableOptionsList at hs
  rw [List.mem_filter] at hs
  obtain ⟨hmem, hne⟩ := hs
  have hne' : s ≠ "" := of_decide_eq_true hne
  simp only [List.mem_cons, List.not_mem_nil, or_false] at hmem
  rcases hmem with h | h | h
  · split at h
    · exact Or.inl h
    · exact absurd h hne'
  · split at h
    · exact Or.inr (Or.inl h)
    · exact absurd h hne'
  · split at h
    · exact Or.inr (Or.inr h)
    · exact absurd h hne'

theorem jsJoin_opts_last (l : List String)
    (h : ∀ s ∈ l, s = "STRICT" ∨ s = "WITHOUT ROWID" ∨ s = "TEMPORARY") :
    ∀ x xs, l = x :: xs →
      ∃ c, (jsJoin " " l).data.getLast? = some c ∧ isJsWhitespace c = false := by
  induction l with
  | nil => intro x xs hx; cases hx
  | cons a tl ih =>
    intro x xs hx
    cases tl with
    | nil =>
      rcases h a (by simp) with ha | ha | ha <;>
        · subst ha
          exact ⟨_, rfl, rfl⟩
    | cons b rest =>
      obtain ⟨c, hc, hw⟩ := ih (fun s hs => h s (List.mem_cons_of_mem a hs)) b rest rfl
      refine ⟨c, ?_, hw⟩
      show ((a ++ " " ++ jsJoin " " (b :: rest)).data).getLast? = some c
      rw [String.data_append, List.getLast?_append, hc]
      rfl

theorem jsJoin_opts_parenFree (l : List String)
    (h : ∀ s ∈ l, s = "STRICT" ∨ s = "WITHOUT ROWID" ∨ s = "TEMPORARY") :
    parenFreeL (jsJoin " " l).data = true := by
  refine parenFreeL_jsJoin " " (by decide) l ?_
  intro s hs
  rcases h s hs with h1 | h1 | h1 <;>
    · subst h1
      decide

theorem create_shape_gen (ine tn body : String) (opts : List String)
    (hine : parenFreeL ine.data = true) (htn : parenFreeL tn.data = true)
    (hbody : Matched body.data)
    (hopts : ∀ s ∈ opts, s = "STRICT" ∨ s = "WITHOUT ROWID" ∨ s = "TEMPORARY") :
    strStartsWith "CREATE TABLE"
      (jsTrim ("CREATE TABLE " ++ ine ++ tn ++ " (" ++ body ++ ") " ++ jsJoin " " opts)) =
      true ∧
    parenProfile
      (jsTrim ("CREATE TABLE " ++ ine ++ tn ++ " (" ++ body ++ ") " ++ jsJoin " " opts)) =
      { depth := 0, groups := 1, bad := false } := by
  have hXhead : ("CREATE TABLE " ++ ine ++ tn ++ " (" ++ body).data.head? = some 'C' :=
    head?_append_of_head _
      (head?_append_of_head _
        (head?_append_of_head _ (head?_append_of_head "CREATE TABLE " rfl _) _) _) _
  have hXdata : ("CREATE TABLE " ++ ine ++ tn ++ " (" ++ body).data =
      "CREATE TABLE ".data ++ ine.data ++ tn.data ++ " (".data ++ body.data := by
    simp [String.data_append]
  cases hol : opts with
  | nil =>
    rw [show jsJoin " " ([] : List String) = "" from rfl, String.append_empty]
    have htrim := jsTrim_trailing_space hXhead (by decide)
    constructor
    · apply startsWith_CT
        (ine.data ++ tn.data ++ " (".data ++ body.data ++ [')'])
      rw [htrim, hXdata]
      simp [List.append_assoc]
    · unfold parenProfile
      rw [htrim, hXdata]
      have hps := pscan_data_gen ine tn body.data [] hine htn hbody (by decide)
      rw [List.append_nil] at hps
      exact hps
  | cons x xs =>
    have hlast := jsJoin_opts_last (x :: xs)
      (fun s hs => hopts s (hol ▸ hs)) x xs rfl
    obtain ⟨c, hc, hw⟩ := hlast
    have hJpf : parenFreeL (jsJoin " " (x :: xs)).data = true :=
      jsJoin_opts_parenFree (x :: xs) (fun s hs => hopts s (hol ▸ hs))
    have hhead0 : ("CREATE TABLE " ++ ine ++ tn ++ " (" ++ body ++ ") " ++
        jsJoin " " (x :: xs)).data.head? = some 'C' :=
      head?_append_of_head _ (head?_append_of_head _ hXhead _) _
    have hlast0 : ("CREATE TABLE " ++ ine ++ tn ++ " (" ++ body ++ ") " ++
        jsJoin " " (x :: xs)).data.getLast? = some c := by
      rw [String.data_append, List.getLast?_append, hc]
      rfl
    have htrim := jsTrim_id hhead0 (by decide) hlast0 hw
    rw [htrim]
    have hdata0 : ("CREATE TABLE " ++ ine ++ tn ++ " (" ++ body ++ ") " ++
        jsJoin " " (x :: xs)).data =
        "CREATE TABLE ".data ++ ine.data ++ tn.data ++ " (".data ++ body.data ++
          [')'] ++ (' ' :: (jsJoin " " (x :: xs)).data) := by
      simp [String.data_append, List.append_assoc]
    constructor
    · apply startsWith_CT
        (ine.data ++ tn.data ++ " (".data ++ body.data ++
          [')'] ++ (' ' :: (jsJoin " " (x :: xs)).data))
      rw [hdata0]
      simp [List.append_assoc]
    · unfold parenProfile
      rw [hdata0]
      exact pscan_data_gen ine tn body.data (' ' :: (jsJoin " " (x :: xs)).data)
        hine htn hbody
        (by
          show parenFreeL ([' '] ++ (jsJoin " " (x :: xs)).data) = true
          exact parenFreeL_append (by decide) hJpf)

/-- C8: for every non-virtual, paren-safe definition, generation
succeeds, the output begins with CREATE TABLE, and the output contains
exactly one top-level parenthesized clause list (scanner: final depth 0,
exactly one completed top-level group, no unmatched closing
parenthesis). -/
theorem C8_create_table_shape (d : ModelDefinition)
    (hv : d.options.virtual = none) (hsafe : defParenSafe d = true) :
    ∃ s, generateCreateTableSQL d = .ok s ∧
      strStartsWith "CREATE TABLE" s = true ∧
      parenProfile s = { depth := 0, groups := 1, bad := false } := by
  have hsafe' := hsafe
  unfold defParenSafe at hsafe'
  simp only [Bool.and_eq_true] at hsafe'
  obtain ⟨⟨htn, _⟩, _⟩ := hsafe'
  have hine : parenFreeL
      (if d.options.ifNotExists then "IF NOT EXISTS " else "").data = true := by
    split <;> decide
  have h := create_shape_gen (if d.options.ifNotExists then "IF NOT EXISTS " else "")
    d.tableName (jsJoin ", " (allDefinitions d.options d.attributes))
    (tableOptionsList d.options) hine htn (body_matched d hsafe)
    (tableOptionsList_mem d.options)
  unfold generateCreateTableSQL
  rw [hv]
  exact ⟨_, rfl, h.1, h.2⟩

/-- C8 witness: the theorem applied at a concrete definition exercising
a check expression and a table modifier. -/
theorem C8_create_table_shape_witness :
    ∃ s, generateCreateTableSQL
      { tableName := "T",
        attributes := [("a", { type := "STRING", check := some "a > 0" })],
        options := { strict := true } } = .ok s ∧
      strStartsWith "CREATE TABLE" s = true ∧
      parenProfile s = { depth := 0, groups := 1, bad := false } :=
  C8_create_table_shape
    { tableName := "T",
      attributes := [("a", { type := "STRING", check := some "a > 0" })],
      options := { strict := true } } rfl (by decide)

/-! ## findAll (src/models/findAll.ts) -/

/-- Modelled from the spec: safeGet (src/utils/queryHelpers.js is missing
from the sources) is a guarded property read, modelled as first-match
lookup in the where object; a missing key reads as undefined. -/
def jsLookup (l : List (String × JSVal)) (k : String) : JSVal :=
  match l.find? (fun p => p.1 = k) with
  | some p => p.2
  | none => .undefinedV

/-- The options object accepted by findAll. -/
structure FindAllOptions where
  where_ : Option (List (String × JSVal)) := none
  order : Option (List (String × String)) := none
  limit : Option Int := none
  offset : Option Int := none

/-- Object.keys(where).filter(key => where[key] !== undefined). -/
def whereKeys (wh : List (String × JSVal)) : List String :=
  (wh.map (fun p => p.1)).filter (fun k => jsLookup wh k ≠ .undefinedV)

/-- The .map over the filtered keys, with its push side effect on the
values array, as one accumulating pass (findAll.ts lines 20 to 31).
The conversion function stands for convertValueForSQLite
(src/utils/queryHelpers.js, missing from the sources) and is kept
abstract. -/
def buildWhere (conv : JSVal → JSVal) (wh : List (String × JSVal)) :
    List String × List JSVal :=
  (whereKeys wh).foldl
    (fun acc k =>
      if conv (jsLookup wh k) = .null then (acc.1 ++ [k ++ " IS NULL"], acc.2)
      else (acc.1 ++ [k ++ " = ?"], acc.2 ++ [conv (jsLookup wh k)]))
    ([], [])

/-- The SQL text and bound parameter list findAll hands to the driver
(findAll.ts lines 17 to 53). -/
def findAllSQL (conv : JSVal → JSVal) (tableName : String) (opts : FindAllOptions) :
    String × List JSVal :=
  let base := "SELECT * FROM " ++ tableName
  let swv : String × List JSVal :=
    match opts.where_ with
    | none => (base, [])
    | some wh =>
      let cv := buildWhere conv wh
      (if cv.1 ≠ [] then base ++ " WHERE " ++ jsJoin " AND " cv.1 else base, cv.2)
  let sql2 :=
    match opts.order with
    | none => swv.1
    | some ord =>
      let ocl := (ord.filter (fun p => p.1 ≠ "")).map
        (fun p => p.1 ++ " " ++ (if p.2 = "DESC" then "DESC" else "ASC"))
      if ocl ≠ [] then swv.1 ++ " ORDER BY " ++ jsJoin ", " ocl else swv.1
  let sql3 :=
    match opts.limit with
    | some n => if 0 ≤ n then sql2 ++ " LIMIT " ++ intToStr n else sql2
    | none => sql2
  let sql4 :=
    match opts.offset with
    | some n => if 0 ≤ n then sql3 ++ " OFFSET " ++ intToStr n else sql3
    | none => sql3
  (sql4, swv.2)

theorem jsLookup_head (p : String × JSVal) (rest : List (String × JSVal)) :
    jsLookup (p :: rest) p.1 = p.2 := by
  unfold jsLookup
  rw [List.find?_cons_of_pos _ (by simp)]

theorem jsLookup_cons_ne {k : String} (p : String × JSVal)
    (rest : List (String × JSVal)) (hk : k ≠ p.1) :
    jsLookup (p :: rest) k = jsLookup rest k := by
  unfold jsLookup
  rw [List.find?_cons_of_neg _ (by simp [Ne.symm hk])]

theorem whereKeys_cons (p : String × JSVal) (rest : List (String × JSVal))
    (hnd : p.1 ∉ rest.map Prod.fst) :
    whereKeys (p :: rest) =
      (if p.2 ≠ .undefinedV then [p.1] else []) ++ whereKeys rest := by
  unfold whereKeys
  rw [List.map_cons, List.filter_cons]
  have hcong : ((p :: rest).map (fun q => q.1)).filter
        (fun k => jsLookup (p :: rest) k ≠ .undefinedV) = _ := rfl
  have hfilter : (rest.map (fun q => q.1)).filter
        (fun k => decide (jsLookup (p :: rest) k ≠ .undefinedV)) =
      (rest.map (fun q => q.1)).filter
        (fun k => decide (jsLookup rest k ≠ .undefinedV)) := by
    apply List.filter_congr
    intro k hk
    have hkne : k ≠ p.1 := by
      intro he
      exact hnd (he ▸ hk)
    rw [jsLookup_cons_ne p rest hkne]
  rw [jsLookup_head]
  by_cases hp : p.2 ≠ .undefinedV
  · rw [if_pos (by simpa using hp), if_pos hp, hfilter]
    rfl
  · rw [if_neg (by simpa using hp), if_neg hp, hfilter]
    rfl

theorem foldl_accum {b : Type} (F : (List String × List JSVal) → b → (List String × List JSVal))
    (hF : ∀ acc x, F acc x = (acc.1 ++ (F ([], []) x).1, acc.2 ++ (F ([], []) x).2)) :
    ∀ (l : List b) (acc), l.foldl F acc =
      (acc.1 ++ (l.foldl F ([], [])).1, acc.2 ++ (l.foldl F ([], [])).2) := by
  intro l
  induction l with
  | nil => intro acc; simp
  | cons x xs ih =>
    intro acc
    rw [List.foldl_cons, List.foldl_cons, ih (F acc x), ih (F ([], []) x), hF acc x]
    simp [List.append_assoc]

theorem buildWhere_hom (conv : JSVal → JSVal) (wh : List (String × JSVal)) :
    ∀ (acc : List String × List JSVal) (k : String),
      (fun (acc : List String × List JSVal) (k : String) =>
        if conv (jsLookup wh k) = .null then (acc.1 ++ [k ++ " IS NULL"], acc.2)
        else (acc.1 ++ [k ++ " = ?"], acc.2 ++ [conv (jsLookup wh k)])) acc k =
      (acc.1 ++ ((fun (acc : List String × List JSVal) (k : String) =>
        if conv (jsLookup wh k) = .null then (acc.1 ++ [k ++ " IS NULL"], acc.2)
        else (acc.1 ++ [k ++ " = ?"], acc.2 ++ [conv (jsLookup wh k)])) ([], []) k).1,
       acc.2 ++ ((fun (acc : List String × List JSVal) (k : String) =>
        if conv (jsLookup wh k) = .null then (acc.1 ++ [k ++ " IS NULL"], acc.2)
        else (acc.1 ++ [k ++ " = ?"], acc.2 ++ [conv (jsLookup wh k)])) ([], []) k).2) := by
  intro acc k
  by_cases hk : conv (jsLookup wh k) = .null <;> simp [hk]

theorem foldl_congr_mem {α β : Type} {f g : α → β → α} {l : List β}
    (h : ∀ b ∈ l, ∀ a, f a b = g a b) : ∀ a, l.foldl f a = l.foldl g a := by
  induction l with
  | nil => intro a; rfl
  | cons b bs ih =>
    intro a
    rw [List.foldl_cons, List.foldl_cons, h b (by simp)]
    exact ih (fun x hx a0 => h x (List.mem_cons_of_mem b hx) a0) _

theorem buildWhere_eq (conv : JSVal → JSVal) (wh : List (String × JSVal))
    (hnd : (wh.map Prod.fst).Nodup) :
    buildWhere conv wh =
      ((wh.filter (fun p => p.2 ≠ .undefinedV)).map
        (fun p => if conv p.2 = .null then p.1 ++ " IS NULL" else p.1 ++ " = ?"),
       (wh.filter (fun p => p.2 ≠ .undefinedV)).filterMap
        (fun p => if conv p.2 = .null then none else some (conv p.2))) := by
  induction wh with
  | nil => rfl
  | cons p rest ih =>
    rw [List.map_cons, List.nodup_cons] at hnd
    obtain ⟨hhead, htail⟩ := hnd
    unfold buildWhere
    rw [whereKeys_cons p rest hhead, List.foldl_append]
    have hconv : ∀ k ∈ whereKeys rest, ∀ acc : List String × List JSVal,
        (if conv (jsLookup (p :: rest) k) = .null then (acc.1 ++ [k ++ " IS NULL"], acc.2)
         else (acc.1 ++ [k ++ " = ?"], acc.2 ++ [conv (jsLookup (p :: rest) k)])) =
        (if conv (jsLookup rest k) = .null then (acc.1 ++ [k ++ " IS NULL"], acc.2)
         else (acc.1 ++ [k ++ " = ?"], acc.2 ++ [conv (jsLookup rest k)])) := by
      intro k hk acc
      have hkmem : k ∈ rest.map Prod.fst := by
        unfold whereKeys at hk
        have := List.mem_of_mem_filter hk
        simpa using this
      have hkne : k ≠ p.1 := by
        intro he
        exact hhead (he ▸ hkmem)
      rw [jsLookup_cons_ne p rest hkne]
    by_cases hp : p.2 = .undefinedV
    · rw [if_neg (by simp [hp])]
      rw [List.foldl_nil]
      rw [foldl_congr_mem hconv]
      have := ih htail
      unfold buildWhere at this
      rw [this]
      rw [List.filter_cons_of_neg (by simp [hp])]
    · rw [if_pos (by simp [hp])]
      rw [List.foldl_cons, List.foldl_nil]
      rw [jsLookup_head]
      rw [foldl_congr_mem hconv]
      have hrest := ih htail
      unfold buildWhere at hrest
      by_cases hnull : conv p.2 = .null
      · rw [if_pos hnull]
        rw [foldl_accum _ (buildWhere_hom conv rest) (whereKeys rest)
          (([] : List String) ++ [p.1 ++ " IS NULL"], ([] : List JSVal))]
        rw [hrest]
        rw [List.filter_cons_of_pos (by simp [hp]), List.map_cons, List.filterMap_cons]
        rw [if_pos hnull]
        simp [hnull]
      · rw [if_neg hnull]
        rw [foldl_accum _ (buildWhere_hom conv rest) (whereKeys rest)
          (([] : List String) ++ [p.1 ++ " = ?"], ([] : List JSVal) ++ [conv p.2])]
        rw [hrest]
        rw [List.filter_cons_of_pos (by simp [hp]), List.map_cons, List.filterMap_cons]
        rw [if_neg hnull]
        simp [hnull]

/-- No capital W occurs in the string (the letter of WHERE that no other
emitted keyword or digit contains). -/
def noW (s : String) : Prop := ∀ c ∈ s.data, c ≠ 'W'

theorem noW_append {a b : String} (ha : noW a) (hb : noW b) : noW (a ++ b) := by
  intro c hc
  rw [String.data_append] at hc
  rcases List.mem_append.mp hc with h | h
  · exact ha c h
  · exact hb c h

theorem natToCharsAux_ne_W (fuel : Nat) :
    ∀ (n : Nat), ∀ c ∈ natToCharsAux fuel n, c ≠ 'W' := by
  induction fuel with
  | zero => intro n c hc; cases hc
  | succ fuel ih =>
    have hbound : ∀ m : Nat, m < 10 → digitChar m ≠ 'W' := by decide
    intro n c hc
    rw [natToCharsAux] at hc
    split at hc
    · next h =>
      simp only [List.mem_singleton] at hc
      subst hc
      exact hbound n h
    · rcases List.mem_append.mp hc with h1 | h1
      · exact ih (n / 10) c h1
      · simp only [List.mem_singleton] at h1
        subst h1
        exact hbound (n % 10) (Nat.mod_lt _ (by omega))

theorem natToChars_ne_W (n : Nat) : ∀ c ∈ natToChars n, c ≠ 'W' :=
  natToCharsAux_ne_W (n + 1) n

theorem intToStr_noW (i : Int) : noW (intToStr i) := by
  unfold intToStr
  split
  · intro c hc
    rw [String.data_append] at hc
    rcases List.mem_append.mp hc with h | h
    · rw [show ("-" : String).data = ['-'] from rfl] at h
      simp only [List.mem_singleton] at h
      subst h
      decide
    · exact natToChars_ne_W _ c h
  · intro c hc
    exact natToChars_ne_W _ c hc

theorem noW_jsJoin (sep : String) (hsep : noW sep) (l : List String)
    (h : ∀ s ∈ l, noW s) : noW (jsJoin sep l) := by
  induction l with
  | nil => intro c hc; cases hc
  | cons x xs ih =>
    cases xs with
    | nil => exact h x (by simp)
    | cons y rest =>
      show noW (x ++ sep ++ jsJoin sep (y :: rest))
      exact noW_append (noW_append (h x (by simp)) hsep)
        (ih (fun s hs => h s (List.mem_cons_of_mem x hs)))

theorem containsSub_head (sub : List Char) {c : Char} {l : List Char}
    (h : containsSub (c :: sub) l = true) : c ∈ l := by
  induction l with
  | nil => cases h
  | cons x xs ih =>
    unfold containsSub at h
    rw [Bool.or_eq_true] at h
    rcases h with h | h
    · rw [List.isPrefixOf_cons₂] at h
      rw [Bool.and_eq_true] at h
      have : c = x := by
        have := h.1
        simpa using this
      subst this
      exact List.mem_cons_self _ _
    · exact List.mem_cons_of_mem x (ih h)

theorem containsSub_WHERE_false {s : String} (h : noW s) :
    containsSub "WHERE".data s.data = false := by
  cases hcs : containsSub "WHERE".data s.data
  · rfl
  · exfalso
    have hmem : 'W' ∈ s.data := by
      apply containsSub_head "HERE".data
      rw [show ('W' :: "HERE".data) = "WHERE".data from rfl]
      exact hcs
    exact h 'W' hmem rfl

theorem whereKeys_all_undefined {wh : List (String × JSVal)}
    (h : ∀ p ∈ wh, p.2 = .undefinedV) : whereKeys wh = [] := by
  unfold whereKeys
  rw [List.filter_eq_nil_iff]
  intro k _
  simp only [decide_eq_true_eq, ne_eq, not_not]
  unfold jsLookup
  match h2 : wh.find? (fun p => p.1 = k) with
  | some p =>
    rw [h2]
    exact h p (List.mem_of_find?_eq_some h2)
  | none => rw [h2]

theorem buildWhere_all_undefined (conv : JSVal → JSVal) {wh : List (String × JSVal)}
    (h : ∀ p ∈ wh, p.2 = .undefinedV) : buildWhere conv wh = ([], []) := by
  unfold buildWhere
  rw [whereKeys_all_undefined h]
  rfl

theorem noW_lit (s : String) (h : s.data.all (fun c => c ≠ 'W') = true) : noW s := by
  intro c hc
  have := List.all_eq_true.mp h c hc
  simpa using this

theorem noW_limit_if (s : String) (hs : noW s) (n : Int) :
    noW (if 0 ≤ n then s ++ " LIMIT " ++ intToStr n else s) := by
  split
  · exact noW_append (noW_append hs (noW_lit _ (by decide))) (intToStr_noW n)
  · exact hs

theorem noW_offset_if (s : String) (hs : noW s) (n : Int) :
    noW (if 0 ≤ n then s ++ " OFFSET " ++ intToStr n else s) := by
  split
  · exact noW_append (noW_append hs (noW_lit _ (by decide))) (intToStr_noW n)
  · exact hs

theorem noW_order_if (s : String) (hs : noW s) (ord : List (String × String))
    (hord : ∀ q ∈ ord, noW q.1) :
    noW (if (ord.filter (fun p => p.1 ≠ "")).map
          (fun p => p.1 ++ " " ++ (if p.2 = "DESC" then "DESC" else "ASC")) ≠ [] then
        s ++ " ORDER BY " ++ jsJoin ", "
          ((ord.filter (fun p => p.1 ≠ "")).map
            (fun p => p.1 ++ " " ++ (if p.2 = "DESC" then "DESC" else "ASC")))
      else s) := by
  split
  · refine noW_append (noW_append hs (noW_lit _ (by decide))) ?_
    refine noW_jsJoin ", " (noW_lit _ (by decide)) _ ?_
    intro x hx
    rcases List.mem_map.mp hx with ⟨q, hqmem, hq⟩
    subst hq
    refine noW_append
      (noW_append (hord q (List.mem_of_mem_filter hqmem)) (noW_lit _ (by decide))) ?_
    split
    · exact noW_lit _ (by decide)
    · exact noW_lit _ (by decide)
  · exact hs

theorem findAllSQL_noW (conv : JSVal → JSVal) (t : String) (opts : FindAllOptions)
    (hW : opts.where_ = none ∨ ∃ w, opts.where_ = some w ∧ ∀ p ∈ w, p.2 = .undefinedV)
    (htW : noW t)
    (hord : ∀ ol, opts.order = some ol → ∀ q ∈ ol, noW q.1) :
    noW (findAllSQL conv t opts).1 := by
  have hbase : noW ("SELECT * FROM " ++ t) := noW_append (noW_lit _ (by decide)) htW
  have hswv : noW (match opts.where_ with
      | none => ("SELECT * FROM " ++ t, ([] : List JSVal))
      | some wh =>
        (if (buildWhere conv wh).1 ≠ [] then
          "SELECT * FROM " ++ t ++ " WHERE " ++ jsJoin " AND " (buildWhere conv wh).1
        else "SELECT * FROM " ++ t, (buildWhere conv wh).2)).1 := by
    rcases hW with hw | ⟨w, hw, hall⟩
    · rw [hw]
      exact hbase
    · rw [hw]
      dsimp only
      rw [buildWhere_all_undefined conv hall]
      rw [if_neg (by simp)]
      exact hbase
  unfold findAllSQL
  dsimp only
  cases hordO : opts.order with
  | none =>
    cases hlim : opts.limit with
    | none =>
      cases hoff : opts.offset with
      | none => exact hswv
      | some m => exact noW_offset_if _ hswv m
    | some n =>
      cases hoff : opts.offset with
      | none => exact noW_limit_if _ hswv n
      | some m => exact noW_offset_if _ (noW_limit_if _ hswv n) m
  | some ord =>
    have hOrd := noW_order_if _ hswv ord (hord ord hordO)
    cases hlim : opts.limit with
    | none =>
      cases hoff : opts.offset with
      | none => exact hOrd
      | some m => exact noW_offset_if _ hOrd m
    | some n =>
      cases hoff : opts.offset with
      | none => exact noW_limit_if _ hOrd n
      | some m => exact noW_offset_if _ (noW_limit_if _ hOrd n) m

theorem findAllSQL_limit_offset (conv : JSVal → JSVal) (t : String)
    (wh : Option (List (String × JSVal))) (ord : Option (List (String × String)))
    (lim off : Option Int) :
    findAllSQL conv t ⟨wh, ord, lim, off⟩ =
      ((findAllSQL conv t ⟨wh, ord, none, none⟩).1 ++
        (match lim with
         | some n => if 0 ≤ n then " LIMIT " ++ intToStr n else ""
         | none => "") ++
        (match off with
         | some n => if 0 ≤ n then " OFFSET " ++ intToStr n else ""
         | none => ""),
       (findAllSQL conv t ⟨wh, ord, none, none⟩).2) := by
  unfold findAllSQL
  dsimp only
  cases lim <;> cases off <;> dsimp only <;> (try split) <;> (try split) <;>
    simp [String.append_assoc, String.append_empty]

/-- C10: in findAll, where entries with undefined values are excluded
and entries whose converted value is null emit IS NULL and bind no
parameter (the clause and parameter lists are exactly a filter and map
of the where object); when where is absent or every entry is excluded
the SQL contains no WHERE text at all; and LIMIT and OFFSET clauses are
appended exactly when the option is defined and non-negative, otherwise
they contribute nothing. -/
theorem C10_findAll_where_policy (conv : JSVal → JSVal) (t : String) :
    (∀ wh : List (String × JSVal), (wh.map Prod.fst).Nodup →
      buildWhere conv wh =
        ((wh.filter (fun p => p.2 ≠ .undefinedV)).map
          (fun p => if conv p.2 = .null then p.1 ++ " IS NULL" else p.1 ++ " = ?"),
         (wh.filter (fun p => p.2 ≠ .undefinedV)).filterMap
          (fun p => if conv p.2 = .null then none else some (conv p.2)))) ∧
    (∀ opts : FindAllOptions,
      (opts.where_ = none ∨ ∃ w, opts.where_ = some w ∧ ∀ p ∈ w, p.2 = .undefinedV) →
      noW t → (∀ ol, opts.order = some ol → ∀ q ∈ ol, noW q.1) →
      containsSub "WHERE".data (findAllSQL conv t opts).1.data = false) ∧
    (∀ wh ord lim off,
      findAllSQL conv t ⟨wh, ord, lim, off⟩ =
        ((findAllSQL conv t ⟨wh, ord, none, none⟩).1 ++
          (match lim with
           | some n => if 0 ≤ n then " LIMIT " ++ intToStr n else ""
           | none => "") ++
          (match off with
           | some n => if 0 ≤ n then " OFFSET " ++ intToStr n else ""
           | none => ""),
         (findAllSQL conv t ⟨wh, ord, none, none⟩).2)) := by
  refine ⟨fun wh hnd => buildWhere_eq conv wh hnd, ?_,
    fun wh ord lim off => findAllSQL_limit_offset conv t wh ord lim off⟩
  intro opts hW htW hord
  exact containsSub_WHERE_false (findAllSQL_noW conv t opts hW htW hord)

/-- C10 witness: the theorem applied at concrete inputs. -/
theorem C10_findAll_where_policy_witness :
    buildWhere (fun v => v) [("a", JSVal.str "x"), ("b", .undefinedV), ("c", .null)] =
      (["a = ?", "c IS NULL"], [JSVal.str "x"]) ∧
    containsSub "WHERE".data
      (findAllSQL (fun v => v) "Users"
        { where_ := some [("b", JSVal.undefinedV)], order := some [("name", "DESC")],
          limit := some 5, offset := some (-1) }).1.data = false ∧
    findAllSQL (fun v => v) "Users"
      { where_ := none, order := none, limit := some 5, offset := some (-1) } =
      ("SELECT * FROM Users LIMIT 5", []) := by
  refine ⟨?_, ?_, ?_⟩
  · have h := (C10_findAll_where_policy (fun v => v) "Users").1
      [("a", JSVal.str "x"), ("b", .undefinedV), ("c", .null)] (by decide)
    rw [h]
    decide
  · exact (C10_findAll_where_policy (fun v => v) "Users").2.1
      { where_ := some [("b", JSVal.undefinedV)], order := some [("name", "DESC")],
        limit := some 5, offset := some (-1) }
      (Or.inr ⟨[("b", JSVal.undefinedV)], rfl, by decide⟩)
      (noW_lit _ (by decide))
      (by
        intro ol hol q hq
        cases hol
        simp only [List.mem_singleton] at hq
        subst hq
        exact noW_lit _ (by decide))
  · have h := (C10_findAll_where_policy (fun v => v) "Users").2.2
      none none (some 5) (some (-1))
    exact h.trans (by decide)
